import Mathlib

/-!
Verification of the attendance-automation reconciliation engine.

This file is a shallow embedding of the program's core logic:

* `utils.py` — `normalize_email`, `parse_duration_to_minutes`, `parse_date`,
  column detection (`detect_registration_columns`, `detect_zoom_columns`) and
  the loaders (`load_registration_csv`, `load_zoom_csv`);
* `processor.py` — `process_attendance` and its result record.

Modelling conventions:

* Python strings are `List Char`; Python numbers (the `int`/`float` cell
  values produced by the CSV reader) are `ℚ`.  Using exact rationals in place
  of IEEE doubles is the one idealisation: every quantity the proofs touch
  (sums of parsed durations, threshold comparisons) is exactly representable.
* A table cell is `Cell`: missing (`NaN`), a string, or a number.  A pandas
  `DataFrame` is a header list plus a list of rows of cells.
* File I/O is an input: the outcome of `read_csv_safe` is passed in as an
  `Except` value, and the success/failure of the final `to_csv` call is the
  `writeFail` parameter (`none` = write succeeded, `some msg` = the exception
  message).  The annotated output table, which the program only writes to
  disk, is returned alongside the result so its contents can be specified.
* The working columns `_normalized_email` / `_parsed_date` that the program
  materialises in the frame and drops before writing are modelled as derived
  functions of a row; input tables that already contain columns with those
  reserved names are outside the modelled domain.
* External library calls (`float(...)`, `re` patterns, `strptime`,
  `pd.to_datetime`) are modelled by executable Lean functions whose doc
  comments state the modelled fragment.
-/

/-! ## Basic string helpers (Python `str` operations on `List Char`) -/

/-- Python whitespace test used by `str.strip()` (ASCII fragment). -/
def isSpaceCh (c : Char) : Bool := c.isWhitespace

/-- Python `str.strip()`: drop leading and trailing whitespace. -/
def pyStrip (s : List Char) : List Char :=
  ((s.dropWhile isSpaceCh).reverse.dropWhile isSpaceCh).reverse

/-- Python `str.lower()` (ASCII fragment, which covers the header keywords
and email addresses the program compares). -/
def pyLower (s : List Char) : List Char := s.map Char.toLower

/-- Does `hay` start with `needle`? -/
def chStarts : List Char → List Char → Bool
  | [], _ => true
  | _ :: _, [] => false
  | a :: as, b :: bs => a == b && chStarts as bs

/-- Python `needle in hay` substring test. -/
def hasSub (needle : List Char) : List Char → Bool
  | [] => needle.isEmpty
  | c :: r => chStarts needle (c :: r) || hasSub needle r

/-- The decimal digit characters. -/
def digitCh : ℕ → Char
  | 0 => '0' | 1 => '1' | 2 => '2' | 3 => '3' | 4 => '4'
  | 5 => '5' | 6 => '6' | 7 => '7' | 8 => '8' | _ => '9'

/-- Numeric value of a digit character. -/
def chVal (c : Char) : ℕ := c.toNat - 48

/-- Fuelled digit expansion (structural recursion, so that it computes by
kernel reduction; `n < fuel` makes the fuel sufficient). -/
def natCharsAux : ℕ → ℕ → List Char
  | 0, _ => []
  | fuel + 1, n =>
    if n < 10 then [digitCh n]
    else natCharsAux fuel (n / 10) ++ [digitCh (n % 10)]

/-- Decimal representation of a natural number (Python `str(n)` for `n : int`). -/
def natChars (n : ℕ) : List Char := natCharsAux (n + 1) n

/-- Value of a digit string, most significant first. -/
def digitsVal (ds : List Char) : ℕ := ds.foldl (fun a c => 10 * a + chVal c) 0

/-- Zero-pad a decimal representation to width 2 (`strftime` `%d`/`%m`). -/
def pad2 (n : ℕ) : List Char := if n < 10 then '0' :: natChars n else natChars n

/-- Zero-pad a decimal representation to width 4 (`strftime` `%Y`). -/
def pad4 (n : ℕ) : List Char :=
  if n < 10 then '0' :: '0' :: '0' :: natChars n
  else if n < 100 then '0' :: '0' :: natChars n
  else if n < 1000 then '0' :: natChars n
  else natChars n

/-- Fractional digits of a rational in `[0,1)`, up to `fuel` places, trailing
zeros omitted. -/
def fracChars (fuel : ℕ) (q : ℚ) : List Char :=
  match fuel with
  | 0 => []
  | fuel + 1 =>
    if q = 0 then []
    else
      let d := (Rat.floor (q * 10)).toNat
      digitCh d :: fracChars fuel (q * 10 - d)

/-- Models Python `str()` on a float cell value (used by `astype(str)`).
Faithful for the short decimal values that arise from CSV cells; the proofs
below never depend on the digits themselves. -/
def floatChars (q : ℚ) : List Char :=
  let s : List Char := if q < 0 then ['-'] else []
  let a : ℚ := |q|
  let ip : ℕ := (Rat.floor a).toNat
  let fr : ℚ := a - ip
  let fs := fracChars 6 fr
  s ++ natChars ip ++ '.' :: (if fs.isEmpty then ['0'] else fs)

/-- String comparison used by Python `sorted` on `str`: lexicographic by code
point, realised through Mathlib's lexicographic order on `List Char`. -/
def strLe (a b : List Char) : Bool := decide (a ≤ b)

/-! ## Cells and `normalize_email` -/

/-- One table cell as produced by `pd.read_csv`: missing (`NaN`), a string,
or a number. -/
inductive Cell where
  | miss : Cell
  | cstr : List Char → Cell
  | cnum : ℚ → Cell
deriving DecidableEq

/-- `utils.normalize_email`: empty string for missing or non-string input,
otherwise strip surrounding whitespace and lowercase. -/
def normalize_email : Cell → List Char
  | Cell.cstr s => pyLower (pyStrip s)
  | _ => []

/-! ## `parse_duration_to_minutes` (utils.py lines 42-97)

The regular expressions of the source are modelled by executable matchers on
`List Char`; each matcher's doc comment names the pattern it embeds. -/

/-- Greedy `\d+` at the head of the string: the matched digits and the rest. -/
def takeDigits (cs : List Char) : List Char × List Char :=
  (cs.takeWhile Char.isDigit, cs.dropWhile Char.isDigit)

/-- Matches `\d+(?:\.\d+)?` at the head of the string, returning its rational
value and the remaining characters.  (Backtracking is not needed: if the
fractional part is present but the overall pattern later fails, the
alternative without it fails as well, since the next character is `.`.) -/
def matchNum (cs : List Char) : Option (ℚ × List Char) :=
  let (ds, r) := takeDigits cs
  if ds.isEmpty then none
  else
    match r with
    | '.' :: r2 =>
      let (fs, r3) := takeDigits r2
      if fs.isEmpty then some ((digitsVal ds : ℚ), '.' :: r2)
      else some ((digitsVal ds : ℚ) + (digitsVal fs : ℚ) / 10 ^ fs.length, r3)
    | _ => some ((digitsVal ds : ℚ), r)

/-- A `digitpart` of a Python float literal: `digit (_? digit)*` — digits
with single underscores allowed between digits.  Returns the digit
characters (underscores removed) and the rest of the string. -/
def uDigitsAux : List Char → (List Char × List Char)
  | [] => ([], [])
  | c :: r =>
    if c.isDigit then
      let p := uDigitsAux r
      (c :: p.1, p.2)
    else if c == '_' then
      match r with
      | c2 :: r2 =>
        if c2.isDigit then
          let p := uDigitsAux r2
          (c2 :: p.1, p.2)
        else ([], c :: r)
      | [] => ([], c :: r)
    else ([], c :: r)

/-- A `digitpart` must begin with a digit (a leading underscore never
matches). -/
def uDigits (cs : List Char) : List Char × List Char :=
  match cs with
  | c :: _ => if c.isDigit then uDigitsAux cs else ([], cs)
  | [] => ([], cs)

/-- The unsigned finite part of a Python float literal, full match required:
`( digitpart [. [digitpart]] | . digitpart ) [ (e|E) [sign] digitpart ]`,
with the exponent applied exactly. -/
def pyFloatCore? (cs : List Char) : Option ℚ :=
  let (ip, r1) := uDigits cs
  match r1 with
  | '.' :: r2 =>
    let (fp, r3) := uDigits r2
    if ip.isEmpty && fp.isEmpty then none
    else expPart? ((digitsVal ip : ℚ) + (digitsVal fp : ℚ) / 10 ^ fp.length) r3
  | _ =>
    if ip.isEmpty then none
    else expPart? ((digitsVal ip : ℚ)) r1
where
  /-- The optional exponent suffix. -/
  expPart? (v : ℚ) : List Char → Option ℚ
  | [] => some v
  | c :: r =>
    if c == 'e' || c == 'E' then
      match r with
      | '-' :: r2 =>
        let (ep, r3) := uDigits r2
        if ep.isEmpty || !r3.isEmpty then none
        else some (v / 10 ^ digitsVal ep)
      | '+' :: r2 =>
        let (ep, r3) := uDigits r2
        if ep.isEmpty || !r3.isEmpty then none
        else some (v * 10 ^ digitsVal ep)
      | r2 =>
        let (ep, r3) := uDigits r2
        if ep.isEmpty || !r3.isEmpty then none
        else some (v * 10 ^ digitsVal ep)
    else none

/-- The word forms Python `float()` maps to non-finite values:
`[+-]? (inf|infinity|nan)`, case-insensitive.  These are unrepresentable in
`ℚ`, so strings satisfying this test are outside the modelled domain of
`pyFloat?`; every theorem about the `float()` stage excludes them by
hypothesis. -/
def pyFloatSpecial (cs : List Char) : Bool :=
  let body := match cs with
    | '+' :: r => r
    | '-' :: r => r
    | r => r
  let lb := pyLower body
  lb == "inf".toList || lb == "infinity".toList || lb == "nan".toList

/-- Models Python `float(s)` on an already-stripped string, for every
finite-valued literal: sign, decimal digits with underscores, optional
fraction, optional exponent.  The non-finite word forms (`pyFloatSpecial`)
are outside the modelled domain, and `float()`'s rounding/overflow to the
nearest IEEE double is idealised by exact rationals, consistently with the
file-wide use of `ℚ` for Python floats. -/
def pyFloat? (cs : List Char) : Option ℚ :=
  match cs with
  | '-' :: r => (pyFloatCore? r).map (fun q => -q)
  | '+' :: r => pyFloatCore? r
  | r => pyFloatCore? r

/-- Full match of `^(\d+):(\d+):(\d+)$`, valued `hours*60 + minutes + seconds/60`. -/
def colon3? (cs : List Char) : Option ℚ :=
  let (h, r) := takeDigits cs
  if h.isEmpty then none
  else
    match r with
    | ':' :: r2 =>
      let (m, r3) := takeDigits r2
      if m.isEmpty then none
      else
        match r3 with
        | ':' :: r4 =>
          let (s, r5) := takeDigits r4
          if s.isEmpty || !r5.isEmpty then none
          else some ((digitsVal h : ℚ) * 60 + digitsVal m + (digitsVal s : ℚ) / 60)
        | _ => none
    | _ => none

/-- Full match of `^(\d+):(\d+)$`, valued `minutes + seconds/60`. -/
def colon2? (cs : List Char) : Option ℚ :=
  let (m, r) := takeDigits cs
  if m.isEmpty then none
  else
    match r with
    | ':' :: r2 =>
      let (s, r3) := takeDigits r2
      if s.isEmpty || !r3.isEmpty then none
      else some ((digitsVal m : ℚ) + (digitsVal s : ℚ) / 60)
    | _ => none

/-- One attempt of `(\d+(?:\.\d+)?)\s*(?:unit...)` at the current position:
a number, optional whitespace, then a character satisfying `isU`.  Because
the unit alternations of the source (`h|hr|hour|hours`, `m|min|...`) each
begin with their one-letter form, the regex accepts exactly when the first
character after the whitespace is that letter. -/
def unitAt (isU : Char → Bool) (cs : List Char) : Option ℚ :=
  match matchNum cs with
  | none => none
  | some (q, r) =>
    match r.dropWhile isSpaceCh with
    | c :: _ => if isU c then some q else none
    | [] => none

/-- `re.search` for the number-then-unit pattern: try every start position
left to right. -/
def searchUnit (isU : Char → Bool) : List Char → Option ℚ
  | [] => none
  | c :: r =>
    match unitAt isU (c :: r) with
    | some q => some q
    | none => searchUnit isU r

/-- `re.search(r'(\d+(?:\.\d+)?)', s)`: first number anywhere in the string. -/
def searchNum : List Char → Option ℚ
  | [] => none
  | c :: r =>
    match matchNum (c :: r) with
    | some (q, _) => some q
    | none => searchNum r

/-- Hour unit: `h|hr|hour|hours` case-insensitive, equivalently a leading
`h`/`H`. -/
def isHourCh (c : Char) : Bool := c == 'h' || c == 'H'

/-- Minute unit: `m|min|mins|minute|minutes` case-insensitive, equivalently a
leading `m`/`M`. -/
def isMinCh (c : Char) : Bool := c == 'm' || c == 'M'

/-- The string pipeline of `parse_duration_to_minutes` (utils.py lines 60-97):
plain numeric parse, then `H:M:S`, then `M:S`, then the hour/minute unit
searches, then the first-number fallback, else 0. -/
def parse_duration_chars (s0 : List Char) : ℚ :=
  let s := pyStrip s0
  match pyFloat? s with
  | some q => q
  | none =>
    match colon3? s with
    | some q => q
    | none =>
      match colon2? s with
      | some q => q
      | none =>
        let hm := searchUnit isHourCh s
        let mm := searchUnit isMinCh s
        if hm.isSome || mm.isSome then hm.getD 0 * 60 + mm.getD 0
        else
          match searchNum s with
          | some q => q
          | none => 0

/-- `utils.parse_duration_to_minutes` on a cell: 0 for missing, numbers
returned directly, strings via the ordered-fallback pipeline. -/
def parse_duration_to_minutes : Cell → ℚ
  | Cell.miss => 0
  | Cell.cnum q => q
  | Cell.cstr s => parse_duration_chars s

/-! ## `parse_date` (utils.py lines 100-141)

`datetime.strptime` is modelled by a token matcher that follows CPython's
`_strptime` regexes: `%d` is `3[01]|[12]\d|0[1-9]|[1-9]` (two digits first,
then one, with regex backtracking), `%m` likewise bounded by 12, `%Y` exactly
four digits, `%y` exactly two with the 69-pivot mapping, `%b`/`%B` the month
names case-insensitively, and a literal space one-or-more whitespace.
A successful pattern match still raises `ValueError` — and so falls through
to the next format — when the field values do not form a real calendar date;
this is the `validDate` check. -/

/-- A calendar date (`datetime.date`). -/
structure PDate where
  year : ℕ
  month : ℕ
  day : ℕ
deriving DecidableEq

/-- Gregorian leap-year rule. -/
def isLeapYear (y : ℕ) : Bool := (y % 4 == 0 && y % 100 != 0) || y % 400 == 0

/-- Days in a month. -/
def daysInMonth (y m : ℕ) : ℕ :=
  if m == 2 then (if isLeapYear y then 29 else 28)
  else if m == 4 || m == 6 || m == 9 || m == 11 then 30
  else 31

/-- Validity check performed by the `datetime` constructor. -/
def validDate (y m d : ℕ) : Bool :=
  1 ≤ y && y ≤ 9999 && 1 ≤ m && m ≤ 12 && 1 ≤ d && d ≤ daysInMonth y m

/-- `strptime` format tokens. -/
inductive DTok where
  | dayT : DTok
  | monthT : DTok
  | year4T : DTok
  | year2T : DTok
  | monAbbrT : DTok
  | monFullT : DTok
  | litT : Char → DTok
  | spT : DTok
deriving DecidableEq

/-- Two leading digits with value in `1..bound` (the two-digit alternatives
of the `%d`/`%m` regexes). -/
def twoDig? (bound : ℕ) : List Char → Option (ℕ × List Char)
  | a :: b :: r =>
    if a.isDigit && b.isDigit then
      let v := chVal a * 10 + chVal b
      if 1 ≤ v && v ≤ bound then some (v, r) else none
    else none
  | _ => none

/-- One leading digit `1..9` (the one-digit alternative of `%d`/`%m`). -/
def oneDig? : List Char → Option (ℕ × List Char)
  | c :: r => if c.isDigit && 1 ≤ chVal c then some (chVal c, r) else none
  | _ => none

/-- Exactly four leading digits (`%Y`). -/
def year4? : List Char → Option (ℕ × List Char)
  | a :: b :: c :: d :: r =>
    if a.isDigit && b.isDigit && c.isDigit && d.isDigit then
      some (chVal a * 1000 + chVal b * 100 + chVal c * 10 + chVal d, r)
    else none
  | _ => none

/-- Exactly two leading digits (`%y`), with CPython's century pivot:
`00-68 → 2000-2068`, `69-99 → 1969-1999`. -/
def year2? : List Char → Option (ℕ × List Char)
  | a :: b :: r =>
    if a.isDigit && b.isDigit then
      let v := chVal a * 10 + chVal b
      some ((if v ≤ 68 then 2000 + v else 1900 + v), r)
    else none
  | _ => none

/-- The English month names (`%B`), lowercased. -/
def monthFullNames : List (ℕ × List Char) :=
  [(1, "january".toList), (2, "february".toList), (3, "march".toList),
   (4, "april".toList), (5, "may".toList), (6, "june".toList),
   (7, "july".toList), (8, "august".toList), (9, "september".toList),
   (10, "october".toList), (11, "november".toList), (12, "december".toList)]

/-- The month abbreviations (`%b`), lowercased. -/
def monthAbbrNames : List (ℕ × List Char) :=
  [(1, "jan".toList), (2, "feb".toList), (3, "mar".toList),
   (4, "apr".toList), (5, "may".toList), (6, "jun".toList),
   (7, "jul".toList), (8, "aug".toList), (9, "sep".toList),
   (10, "oct".toList), (11, "nov".toList), (12, "dec".toList)]

/-- Case-insensitive match of one of the month names at the head of the
string (no name is a prefix of another, so first match is deterministic). -/
def matchMonth : List (ℕ × List Char) → List Char → Option (ℕ × List Char)
  | [], _ => none
  | (v, name) :: rest, cs =>
    if chStarts name (pyLower (cs.take name.length)) then
      some (v, cs.drop name.length)
    else matchMonth rest cs

/-- The `strptime` matcher: consume the token list against the string,
accumulating day/month/year; the whole string must be consumed.  `%d` and
`%m` try their two-digit alternatives before the one-digit one, with
backtracking into the rest of the pattern, exactly as the compiled regex
does. -/
def matchToks : List DTok → List Char → ℕ → ℕ → ℕ → Option (ℕ × ℕ × ℕ)
  | [], cs, d, m, y => if cs.isEmpty then some (d, m, y) else none
  | DTok.dayT :: ts, cs, _, m, y =>
    (match twoDig? 31 cs with
     | some (v, r) => matchToks ts r v m y
     | none => none).orElse (fun _ =>
      match oneDig? cs with
      | some (v, r) => matchToks ts r v m y
      | none => none)
  | DTok.monthT :: ts, cs, d, _, y =>
    (match twoDig? 12 cs with
     | some (v, r) => matchToks ts r d v y
     | none => none).orElse (fun _ =>
      match oneDig? cs with
      | some (v, r) => matchToks ts r d v y
      | none => none)
  | DTok.year4T :: ts, cs, d, m, _ =>
    match year4? cs with
    | some (v, r) => matchToks ts r d m v
    | none => none
  | DTok.year2T :: ts, cs, d, m, _ =>
    match year2? cs with
    | some (v, r) => matchToks ts r d m v
    | none => none
  | DTok.monAbbrT :: ts, cs, d, _, y =>
    match matchMonth monthAbbrNames cs with
    | some (v, r) => matchToks ts r d v y
    | none => none
  | DTok.monFullT :: ts, cs, d, _, y =>
    match matchMonth monthFullNames cs with
    | some (v, r) => matchToks ts r d v y
    | none => none
  | DTok.litT c :: ts, cs, d, m, y =>
    match cs with
    | c2 :: r => if c2 == c then matchToks ts r d m y else none
    | [] => none
  | DTok.spT :: ts, cs, d, m, y =>
    match cs with
    | c :: r => if isSpaceCh c then matchToks ts (r.dropWhile isSpaceCh) d m y else none
    | [] => none

/-- One `datetime.strptime(s, fmt).date()` attempt: pattern match, then the
constructor's validity check; `none` models the caught `ValueError`. -/
def tryFormat (toks : List DTok) (cs : List Char) : Option PDate :=
  match matchToks toks cs 1 1 1900 with
  | some (d, m, y) => if validDate y m d then some ⟨y, m, d⟩ else none
  | none => none

/-- The fixed ordered format list of `parse_date` (utils.py lines 118-129). -/
def dateFormats : List (List DTok) :=
  [ [DTok.dayT, DTok.litT '-', DTok.monthT, DTok.litT '-', DTok.year4T],
    [DTok.dayT, DTok.litT '/', DTok.monthT, DTok.litT '/', DTok.year4T],
    [DTok.year4T, DTok.litT '-', DTok.monthT, DTok.litT '-', DTok.dayT],
    [DTok.dayT, DTok.litT '-', DTok.monthT, DTok.litT '-', DTok.year2T],
    [DTok.dayT, DTok.litT '/', DTok.monthT, DTok.litT '/', DTok.year2T],
    [DTok.monthT, DTok.litT '-', DTok.dayT, DTok.litT '-', DTok.year4T],
    [DTok.monthT, DTok.litT '/', DTok.dayT, DTok.litT '/', DTok.year4T],
    [DTok.dayT, DTok.spT, DTok.monAbbrT, DTok.spT, DTok.year4T],
    [DTok.dayT, DTok.spT, DTok.monFullT, DTok.spT, DTok.year4T],
    [DTok.year4T, DTok.litT '/', DTok.monthT, DTok.litT '/', DTok.dayT] ]

/-- Try the formats in order, first success wins (the `for fmt in formats`
loop with `except ValueError: continue`). -/
def firstFmt : List (List DTok) → List Char → Option PDate
  | [], _ => none
  | f :: fs, cs =>
    match tryFormat f cs with
    | some d => some d
    | none => firstFmt fs cs

/-- The word inputs `pd.to_datetime` special-cases to the current
timestamp (`pandas parse_datetime_string`: `if date_string in ("now",
"today")`, an exact lowercase comparison).  For these the program returns
the wall-clock date, which a pure embedding cannot produce, so they are
outside the modelled domain of `pdFallback` and excluded by hypothesis in
the theorems that reach the fallback. -/
def pdTodayWord (cs : List Char) : Bool :=
  cs == "today".toList || cs == "now".toList

/-- Models the `pd.to_datetime(date_str, dayfirst=True)` fallback (an
external library call).  Modelled fragment: day-first dot-separated dates
and compact `yyyymmdd` digit strings; other inputs are rejected — pandas
raises, or yields its null `NaT` for empty/`"nan"`-like strings, and either
way the caller's date-equality mask treats the row as having no date, which
`none` models.  The exceptions are the wall-clock words of `pdTodayWord`,
which are outside the modelled domain (see there); theorems that reach the
fallback exclude them by hypothesis. -/
def pdFallback (cs : List Char) : Option PDate :=
  firstFmt
    [ [DTok.dayT, DTok.litT '.', DTok.monthT, DTok.litT '.', DTok.year4T],
      [DTok.dayT, DTok.litT '.', DTok.monthT, DTok.litT '.', DTok.year2T],
      [DTok.year4T, DTok.monthT, DTok.dayT] ] cs

/-- The string pipeline of `parse_date` (utils.py lines 115-141). -/
def parse_date_chars (s0 : List Char) : Option PDate :=
  let s := pyStrip s0
  match firstFmt dateFormats s with
  | some d => some d
  | none => pdFallback s

/-- `utils.parse_date` on a cell.  Missing is `None`; CSV cells are never
`datetime` objects, so the `isinstance`/`hasattr` branches are vacuous here;
a numeric cell's string form (`"90.5"`, `"20250115.0"`) contains no date
separator, fails every fixed format, and is rejected by the generic parser,
so it is modelled as `none`. -/
def parse_date_cell : Cell → Option PDate
  | Cell.miss => none
  | Cell.cstr s => parse_date_chars s
  | Cell.cnum _ => none

/-! ## Tables, column mappings, detection and loaders (utils.py lines 148-264)

A `Table` is the post-`read_csv_safe` frame: stripped header names and one
cell list per row.  A `ColMap` maps the standardized field keys to column
names; lookup is first-match, and the program only ever appends fresh keys,
matching Python `dict` semantics. -/

/-- A pandas `DataFrame` after `read_csv_safe`. -/
structure Table where
  headers : List (List Char)
  rows : List (List Cell)
deriving DecidableEq

/-- The standardized field keys of `REGISTRATION_FIELDS` / `ZOOM_FIELDS`. -/
inductive FieldKey where
  | emailK : FieldKey
  | trainingDateK : FieldKey
  | att1K : FieldKey
  | att2K : FieldKey
  | nameK : FieldKey
  | versionK : FieldKey
  | durationK : FieldKey
deriving DecidableEq

/-- The standardized key names as they appear in error messages. -/
def keyName : FieldKey → List Char
  | FieldKey.emailK => "Email".toList
  | FieldKey.trainingDateK => "Training date".toList
  | FieldKey.att1K => "Attendance - Day 1".toList
  | FieldKey.att2K => "Attendance - Day 2".toList
  | FieldKey.nameK => "Name".toList
  | FieldKey.versionK => "Version".toList
  | FieldKey.durationK => "Duration".toList

/-- A column mapping `{standardized_key: csv_column_name}`. -/
abbrev ColMap : Type := List (FieldKey × List Char)

/-- Python `dict` lookup (keys are never duplicated by the program). -/
def lookupKey (m : ColMap) (k : FieldKey) : Option (List Char) :=
  (m.find? (fun p => p.1 == k)).map Prod.snd

/-- Index of a column name in the header list (first match, like column
selection on a frame). -/
def colIdx (hs : List (List Char)) (n : List Char) : Option ℕ :=
  match hs with
  | [] => none
  | h :: t => if h == n then some 0 else (colIdx t n).map (· + 1)

/-- Read the cell of `row` in the column named `n` (missing when the column
or the cell is absent). -/
def getCellR (hs : List (List Char)) (row : List Cell) (n : List Char) : Cell :=
  match colIdx hs n with
  | some i => row.getD i Cell.miss
  | none => Cell.miss

/-- Overwrite the cell of `row` in the column named `n`. -/
def setCellR (hs : List (List Char)) (row : List Cell) (n : List Char) (c : Cell) : List Cell :=
  match colIdx hs n with
  | some i => row.set i c
  | none => row

/-- `df[n] = c` for a constant `c`: overwrite the column if it exists,
otherwise append it. -/
def setColumn (t : Table) (n : List Char) (c : Cell) : Table :=
  if (colIdx t.headers n).isSome then
    { headers := t.headers, rows := t.rows.map (fun r => setCellR t.headers r n c) }
  else
    { headers := t.headers ++ [n], rows := t.rows.map (fun r => r ++ [c]) }

/-- `df[n] = df[n].map f`: transform one column cell-wise. -/
def mapColumn (t : Table) (n : List Char) (f : Cell → Cell) : Table :=
  { headers := t.headers,
    rows := t.rows.map (fun r => setCellR t.headers r n (f (getCellR t.headers r n))) }

/-- `utils.detect_registration_columns`: scan headers in order; the `elif`
chain assigns each header to the first matching, still-unassigned key. -/
def detect_registration_columns (hs : List (List Char)) : ColMap :=
  hs.foldl
    (fun m col =>
      let cl := pyStrip (pyLower col)
      if hasSub "email".toList cl && (lookupKey m FieldKey.emailK).isNone then
        m ++ [(FieldKey.emailK, col)]
      else if (hasSub "training date".toList cl || hasSub "training_date".toList cl)
          && (lookupKey m FieldKey.trainingDateK).isNone then
        m ++ [(FieldKey.trainingDateK, col)]
      else if hasSub "attendance".toList cl && hasSub "day 1".toList cl
          && (lookupKey m FieldKey.att1K).isNone then
        m ++ [(FieldKey.att1K, col)]
      else if hasSub "attendance".toList cl && hasSub "day 2".toList cl
          && (lookupKey m FieldKey.att2K).isNone then
        m ++ [(FieldKey.att2K, col)]
      else if (cl == "name".toList || cl == "participant name".toList)
          && (lookupKey m FieldKey.nameK).isNone then
        m ++ [(FieldKey.nameK, col)]
      else if (hasSub "version".toList cl || hasSub "program".toList cl)
          && (lookupKey m FieldKey.versionK).isNone then
        m ++ [(FieldKey.versionK, col)]
      else m)
    []

/-- `utils.detect_zoom_columns`. -/
def detect_zoom_columns (hs : List (List Char)) : ColMap :=
  hs.foldl
    (fun m col =>
      let cl := pyStrip (pyLower col)
      if hasSub "email".toList cl && (lookupKey m FieldKey.emailK).isNone then
        m ++ [(FieldKey.emailK, col)]
      else if hasSub "duration".toList cl && (lookupKey m FieldKey.durationK).isNone then
        m ++ [(FieldKey.durationK, col)]
      else if hasSub "name".toList cl && (lookupKey m FieldKey.nameK).isNone then
        m ++ [(FieldKey.nameK, col)]
      else m)
    []

/-- `", ".join(missing)`. -/
def joinComma : List (List Char) → List Char
  | [] => []
  | [x] => x
  | x :: xs => x ++ ", ".toList ++ joinComma xs

/-- `utils.load_registration_csv`: the file-reading outcome is the `read`
argument; detection runs only when no override is supplied; the required
keys are `Email` and `Training date`. -/
def load_registration_csv (read : Except (List Char) Table) (ov : Option ColMap) :
    Except (List Char) (Table × ColMap) :=
  match read with
  | Except.error e => Except.error e
  | Except.ok df =>
    let cm := match ov with
      | some m => m
      | none => detect_registration_columns df.headers
    let missing := [FieldKey.emailK, FieldKey.trainingDateK].filter
      (fun k => (lookupKey cm k).isNone)
    if missing.isEmpty then Except.ok (df, cm)
    else Except.error ("Missing required columns: ".toList ++ joinComma (missing.map keyName))

/-- `utils.load_zoom_csv`: required keys `Email` and `Duration`. -/
def load_zoom_csv (read : Except (List Char) Table) (ov : Option ColMap) :
    Except (List Char) (Table × ColMap) :=
  match read with
  | Except.error e => Except.error e
  | Except.ok df =>
    let cm := match ov with
      | some m => m
      | none => detect_zoom_columns df.headers
    let missing := [FieldKey.emailK, FieldKey.durationK].filter
      (fun k => (lookupKey cm k).isNone)
    if missing.isEmpty then Except.ok (df, cm)
    else Except.error ("Missing required columns in Zoom CSV: ".toList
      ++ joinComma (missing.map keyName))

/-! ## The reconciliation engine (processor.py lines 53-206)

`process_attendance` is decomposed into named derived functions so that the
theorems can speak about each part; `runCore` assembles them into the result
record exactly as the source's steps do.  The per-index loop of step 6
touches, for each filtered index, only that row — it reads the row's
normalized email (derived before the loop) and writes the row's attendance
cell — so it is embedded as a row-wise map. -/

/-- `reg_col_map['Training date']`. -/
def regDateCol (cm : ColMap) : List Char := (lookupKey cm FieldKey.trainingDateK).getD []

/-- `reg_col_map['Email']`. -/
def regEmailCol (cm : ColMap) : List Char := (lookupKey cm FieldKey.emailK).getD []

/-- `reg_col_map['Version']`. -/
def regVersionCol (cm : ColMap) : List Char := (lookupKey cm FieldKey.versionK).getD []

/-- Python truthiness of the filter: `program_filter and program_filter != "All"`. -/
def pfGiven (pf : Option (List Char)) : Bool :=
  match pf with
  | some p => !p.isEmpty && !(p == "All".toList)
  | none => false

/-- The guard of processor.py line 129: the program filter is applied only
when it is truthy, differs from `"All"`, and a `Version` column is mapped. -/
def filterActive (cm : ColMap) (pf : Option (List Char)) : Bool :=
  pfGiven pf && (lookupKey cm FieldKey.versionK).isSome

/-- `astype(str)` on a single cell (`NaN` becomes the string `"nan"`). -/
def cellPyStr : Cell → List Char
  | Cell.miss => "nan".toList
  | Cell.cstr s => s
  | Cell.cnum q => floatChars q

/-- `fillna("").astype(str)` on a single cell (processor.py line 111). -/
def coerceCell : Cell → Cell
  | Cell.miss => Cell.cstr []
  | Cell.cstr s => Cell.cstr s
  | Cell.cnum q => Cell.cstr (floatChars q)

/-- The date/program row mask of processor.py lines 126-132. -/
def inScopeRow (hs : List (List Char)) (cm : ColMap) (pf : Option (List Char))
    (sel : PDate) (row : List Cell) : Bool :=
  (parse_date_cell (getCellR hs row (regDateCol cm)) == some sel)
  && (if filterActive cm pf then
        pyStrip (cellPyStr (getCellR hs row (regVersionCol cm))) == pf.getD []
      else true)

/-- Which attendance key the `attendance_day` argument selects
(processor.py lines 97-100: day 1 exactly, anything else day 2). -/
def attKeyOf (day : ℕ) : FieldKey :=
  if day = 1 then FieldKey.att1K else FieldKey.att2K

/-- The attendance column name: the mapped one, or the freshly created
`"Attendance - Day {attendance_day}"` (processor.py lines 102-108). -/
def prepAttName (cm : ColMap) (day : ℕ) : List Char :=
  match lookupKey cm (attKeyOf day) with
  | some n => n
  | none => "Attendance - Day ".toList ++ natChars day

/-- The column map after step 2 (the attendance key is registered if it was
absent). -/
def prepMap (cm : ColMap) (day : ℕ) : ColMap :=
  match lookupKey cm (attKeyOf day) with
  | some _ => cm
  | none => cm ++ [(attKeyOf day, prepAttName cm day)]

/-- The roster table after step 2: the attendance column is created when
unmapped, then coerced to strings cell-wise (processor.py lines 102-111). -/
def prepTable (t : Table) (cm : ColMap) (day : ℕ) : Table :=
  let n := prepAttName cm day
  let t1 := match lookupKey cm (attKeyOf day) with
    | some _ => t
    | none => setColumn t n (Cell.cstr [])
  mapColumn t1 n coerceCell

/-- `(normalized email, parsed duration)` of every participation row
(processor.py lines 119 and 144). -/
def zoomPairs (zt : Table) (zcm : ColMap) : List (List Char × ℚ) :=
  zt.rows.map (fun r =>
    (normalize_email (getCellR zt.headers r (regEmailCol zcm)),
     parse_duration_to_minutes (getCellR zt.headers r ((lookupKey zcm FieldKey.durationK).getD []))))

/-- The keys of the participation aggregate: the distinct normalized emails,
with the empty key dropped (`groupby` keys after `zoom_dict.pop("")`,
processor.py lines 146-150). -/
def zoomKeys (zt : Table) (zcm : ColMap) : List (List Char) :=
  (((zoomPairs zt zcm).map Prod.fst).dedup).filter (fun e => !e.isEmpty)

/-- Summed duration of all participation rows sharing a normalized email
(the `groupby(...).sum()`). -/
def zoomSum (zt : Table) (zcm : ColMap) (e : List Char) : ℚ :=
  (((zoomPairs zt zcm).filter (fun p => p.1 == e)).map Prod.snd).sum

/-- `zoom_dict` lookup: `some` summed duration for aggregate keys, `none`
otherwise. -/
def zoomLookup (zt : Table) (zcm : ColMap) (e : List Char) : Option ℚ :=
  if (zoomKeys zt zcm).contains e then some (zoomSum zt zcm e) else none

/-- Classification outcome of one in-scope roster row. -/
inductive Mark where
  | pres : Mark
  | below : Mark
  | nf : Mark
deriving DecidableEq

/-- The classification of processor.py lines 155-173: empty identity is
not-found; otherwise the aggregate entry decides present / below-threshold /
not-found. -/
def classifyRow (hs : List (List Char)) (cm : ColMap) (zt : Table) (zcm : ColMap)
    (minD : ℚ) (row : List Cell) : Mark :=
  let e := normalize_email (getCellR hs row (regEmailCol cm))
  if e.isEmpty then Mark.nf
  else
    match zoomLookup zt zcm e with
    | some d => if minD ≤ d then Mark.pres else Mark.below
    | none => Mark.nf

/-- The attendance mark written for each classification. -/
def markChar : Mark → List Char
  | Mark.pres => ['Y']
  | _ => ['N']

/-- The in-scope rows (`reg_df[date_mask]`). -/
def scopedRows (t : Table) (cm : ColMap) (pf : Option (List Char)) (sel : PDate) :
    List (List Cell) :=
  t.rows.filter (inScopeRow t.headers cm pf sel)

/-- One classification count over the in-scope rows. -/
def countMark (t : Table) (cm : ColMap) (zt : Table) (zcm : ColMap) (minD : ℚ)
    (pf : Option (List Char)) (sel : PDate) (mk : Mark) : ℕ :=
  (scopedRows t cm pf sel).countP
    (fun r => classifyRow t.headers cm zt zcm minD r == mk)

/-- The rows of the annotated output table: in-scope rows get their
attendance cell overwritten with the mark, out-of-scope rows pass through
(processor.py lines 155-173). -/
def outRowsOf (t : Table) (cm : ColMap) (attName : List Char) (zt : Table) (zcm : ColMap)
    (pf : Option (List Char)) (sel : PDate) (minD : ℚ) : List (List Cell) :=
  t.rows.map (fun r =>
    if inScopeRow t.headers cm pf sel r then
      setCellR t.headers r attName
        (Cell.cstr (markChar (classifyRow t.headers cm zt zcm minD r)))
    else r)

/-- `reg_emails_for_date`: the non-empty normalized identities of the
in-scope rows (processor.py lines 176-180). -/
def scopedEmails (t : Table) (cm : ColMap) (pf : Option (List Char)) (sel : PDate) :
    List (List Char) :=
  ((scopedRows t cm pf sel).map
    (fun r => normalize_email (getCellR t.headers r (regEmailCol cm)))).filter
    (fun e => !e.isEmpty)

/-- `result.unmatched_zoom_emails`: aggregate keys not among the in-scope
identities, sorted ascending (processor.py lines 181-183). -/
def unmatchedOf (t : Table) (cm : ColMap) (pf : Option (List Char)) (sel : PDate)
    (zt : Table) (zcm : ColMap) : List (List Char) :=
  List.mergeSort
    ((zoomKeys zt zcm).filter (fun e => !(scopedEmails t cm pf sel).contains e)) strLe

/-- `selected_date.strftime('%Y-%m-%d')`. -/
def ymdChars (d : PDate) : List Char :=
  pad4 d.year ++ '-' :: (pad2 d.month ++ '-' :: pad2 d.day)

/-- `selected_date.strftime('%d-%m-%Y')` (used in the zero-registrations
warning). -/
def dmyChars (d : PDate) : List Char :=
  pad2 d.day ++ '-' :: (pad2 d.month ++ '-' :: pad4 d.year)

/-- `.replace(" ", "_").replace("/", "-")` on the program suffix. -/
def replSpaceSlash (s : List Char) : List Char :=
  s.map (fun c => if c == ' ' then '_' else if c == '/' then '-' else c)

/-- The deterministic output filename (processor.py lines 192-197). -/
def outFileName (sel : PDate) (day : ℕ) (pf : Option (List Char)) : List Char :=
  "attendance_output_".toList ++ ymdChars sel ++ "_Day".toList ++ natChars day
    ++ replSpaceSlash (if pfGiven pf then '_' :: pf.getD [] else [])
    ++ ".csv".toList

/-- `os.path.dirname`, modelled for the relative and plain absolute paths
the program passes around (the claims never inspect the directory part). -/
def dirnameOf (p : List Char) : List Char :=
  ((p.reverse.dropWhile (fun c => !(c == '/'))).drop 1).reverse

/-- `os.path.join` for a relative filename. -/
def joinPath (d f : List Char) : List Char :=
  if d.isEmpty then f else d ++ '/' :: f

/-- The zero-registrations warning text (processor.py lines 138-141); note
it mentions the program whenever the filter is truthy, whether or not a
`Version` column made it applicable. -/
def warnMsg (sel : PDate) (pf : Option (List Char)) : List Char :=
  "No registrations found for date ".toList ++ dmyChars sel
    ++ (if pfGiven pf then " and program '".toList ++ pf.getD [] ++ "'".toList else [])

/-- `processor.AttendanceResult`. -/
structure AttendanceResult where
  total_registrations : ℕ
  total_zoom_participants : ℕ
  matched_present : ℕ
  matched_below_threshold : ℕ
  not_found_in_zoom : ℕ
  unmatched_zoom_emails : List (List Char)
  output_filepath : List Char
  errors : List (List Char)
  warnings : List (List Char)
deriving DecidableEq

/-- A freshly constructed result carrying only error entries (the shape of
an aborted run). -/
def emptyResult (errs : List (List Char)) : AttendanceResult :=
  ⟨0, 0, 0, 0, 0, [], [], errs, []⟩

/-- Steps 2-7 of `process_attendance`, once both loads succeeded.  Returns
the result record together with the annotated output table that step 7
writes (the working columns exist here only as derived functions, so the
`drop(columns=...)` of line 187 is the identity). -/
def runCore (rt : Table) (rcm : ColMap) (zt : Table) (zcm : ColMap) (sel : PDate)
    (day : ℕ) (pf : Option (List Char)) (minD : ℚ) (outDir : List Char)
    (writeFail : Option (List Char)) : AttendanceResult × Table :=
  let cm := prepMap rcm day
  let t := prepTable rt rcm day
  let attName := prepAttName rcm day
  let nScoped := (scopedRows t cm pf sel).length
  let path := joinPath outDir (outFileName sel day pf)
  ({ total_registrations := nScoped
     total_zoom_participants := (zoomKeys zt zcm).length
     matched_present := countMark t cm zt zcm minD pf sel Mark.pres
     matched_below_threshold := countMark t cm zt zcm minD pf sel Mark.below
     not_found_in_zoom := countMark t cm zt zcm minD pf sel Mark.nf
     unmatched_zoom_emails := unmatchedOf t cm pf sel zt zcm
     output_filepath := match writeFail with | none => path | some _ => []
     errors := match writeFail with
       | none => []
       | some m => ["Error saving output: ".toList ++ m]
     warnings := if nScoped = 0 then [warnMsg sel pf] else [] },
   { headers := t.headers, rows := outRowsOf t cm attName zt zcm pf sel minD })

/-- `processor.process_attendance`.  `regRead`/`zoomRead` are the outcomes
of `read_csv_safe` on the two files; `writeFail` is the outcome of the final
`to_csv` (`none` = written, `some msg` = the caught exception's text).  The
annotated output table is returned alongside the result (`none` when the run
aborted before producing one). -/
def process_attendance (regRead zoomRead : Except (List Char) Table)
    (reg_filepath : List Char) (sel : PDate) (day : ℕ) (pf : Option (List Char))
    (minD : ℚ) (output_dir : Option (List Char)) (regOv zoomOv : Option ColMap)
    (writeFail : Option (List Char)) : AttendanceResult × Option Table :=
  match load_registration_csv regRead regOv with
  | Except.error e => (emptyResult ["Registration CSV: ".toList ++ e], none)
  | Except.ok (rt, rcm) =>
    match load_zoom_csv zoomRead zoomOv with
    | Except.error e => (emptyResult ["Zoom CSV: ".toList ++ e], none)
    | Except.ok (zt, zcm) =>
      let r := runCore rt rcm zt zcm sel day pf minD
        (output_dir.getD (dirnameOf reg_filepath)) writeFail
      (r.1, some r.2)

/-! ## Supporting lemmas -/

/-- Both loads succeeding reduce `process_attendance` to `runCore`. -/
theorem process_eq_runCore {regRead zoomRead : Except (List Char) Table}
    {regOv zoomOv : Option ColMap} {rt zt : Table} {rcm zcm : ColMap}
    (rfp : List Char) (sel : PDate) (day : ℕ) (pf : Option (List Char)) (minD : ℚ)
    (odir : Option (List Char)) (wf : Option (List Char))
    (hr : load_registration_csv regRead regOv = Except.ok (rt, rcm))
    (hz : load_zoom_csv zoomRead zoomOv = Except.ok (zt, zcm)) :
    process_attendance regRead zoomRead rfp sel day pf minD odir regOv zoomOv wf
      = ((runCore rt rcm zt zcm sel day pf minD (odir.getD (dirnameOf rfp)) wf).1,
         some (runCore rt rcm zt zcm sel day pf minD (odir.getD (dirnameOf rfp)) wf).2) := by
  simp [process_attendance, hr, hz]

/-- Every row is classified into exactly one of the three marks, so the three
`countP`s partition the list. -/
theorem countP_marks (l : List (List Cell)) (f : List Cell → Mark) :
    l.countP (fun r => f r == Mark.pres) + l.countP (fun r => f r == Mark.below)
      + l.countP (fun r => f r == Mark.nf) = l.length := by
  induction l with
  | nil => simp
  | cons a l ih =>
    rcases h : f a <;> simp [List.countP_cons, h, ih] <;> omega

/-! ## Concrete fixtures used by the witnesses -/

/-- A one-row roster table. -/
def wReg : Table :=
  { headers := ["Email".toList, "Training Date".toList],
    rows := [[Cell.cstr "a@x.com".toList, Cell.cstr "15-01-2025".toList]] }

/-- A two-row participation table. -/
def wZoom : Table :=
  { headers := ["Email".toList, "Duration".toList],
    rows := [[Cell.cstr "a@x.com".toList, Cell.cstr "90".toList],
             [Cell.cstr "b@y.com".toList, Cell.cstr "30".toList]] }

/-- The detected roster mapping of `wReg`. -/
def wRegMap : ColMap := detect_registration_columns wReg.headers

/-- The detected participation mapping of `wZoom`. -/
def wZoomMap : ColMap := detect_zoom_columns wZoom.headers

/-- The sample date 2025-01-15. -/
def wDate : PDate := ⟨2025, 1, 15⟩

/-! ## C2 — the three classification counts partition the in-scope rows -/

/-- C2: for every run of `process_attendance` that passes loading,
`matched_present + matched_below_threshold + not_found_in_zoom =
total_registrations`, and `total_registrations` is the number of in-scope
roster rows (parsed training date equal to the selected date, and the
optional program filter). -/
theorem C2_counts_partition (regRead zoomRead : Except (List Char) Table)
    (rfp : List Char) (sel : PDate) (day : ℕ) (pf : Option (List Char)) (minD : ℚ)
    (odir : Option (List Char)) (regOv zoomOv : Option ColMap) (wf : Option (List Char))
    (rt zt : Table) (rcm zcm : ColMap)
    (hr : load_registration_csv regRead regOv = Except.ok (rt, rcm))
    (hz : load_zoom_csv zoomRead zoomOv = Except.ok (zt, zcm)) :
    (process_attendance regRead zoomRead rfp sel day pf minD odir regOv zoomOv wf).1.matched_present
      + (process_attendance regRead zoomRead rfp sel day pf minD odir regOv zoomOv wf).1.matched_below_threshold
      + (process_attendance regRead zoomRead rfp sel day pf minD odir regOv zoomOv wf).1.not_found_in_zoom
      = (process_attendance regRead zoomRead rfp sel day pf minD odir regOv zoomOv wf).1.total_registrations
    ∧ (process_attendance regRead zoomRead rfp sel day pf minD odir regOv zoomOv wf).1.total_registrations
      = (scopedRows (prepTable rt rcm day) (prepMap rcm day) pf sel).length := by
  rw [process_eq_runCore rfp sel day pf minD odir wf hr hz]
  constructor
  · exact countP_marks _ _
  · rfl

/-- Witness for C2 at a concrete run. -/
theorem C2_counts_partition_witness :
    (process_attendance (Except.ok wReg) (Except.ok wZoom) "r.csv".toList wDate 1 none 60
        none none none none).1.matched_present
      + (process_attendance (Except.ok wReg) (Except.ok wZoom) "r.csv".toList wDate 1 none 60
        none none none none).1.matched_below_threshold
      + (process_attendance (Except.ok wReg) (Except.ok wZoom) "r.csv".toList wDate 1 none 60
        none none none none).1.not_found_in_zoom
      = (process_attendance (Except.ok wReg) (Except.ok wZoom) "r.csv".toList wDate 1 none 60
        none none none none).1.total_registrations
    ∧ (process_attendance (Except.ok wReg) (Except.ok wZoom) "r.csv".toList wDate 1 none 60
        none none none none).1.total_registrations
      = (scopedRows (prepTable wReg wRegMap 1) (prepMap wRegMap 1) none wDate).length :=
  C2_counts_partition (Except.ok wReg) (Except.ok wZoom) "r.csv".toList wDate 1 none 60
    none none none none wReg wZoom wRegMap wZoomMap rfl rfl

/-! ## C7 — a write failure does not discard the computed statistics -/

/-- C7: if persisting the output table fails, the returned result carries the
same statistics (counts, unmatched list, warnings) as the successful run, an
error entry about saving is appended, and the output file path stays empty. -/
theorem C7_write_failure_keeps_stats (regRead zoomRead : Except (List Char) Table)
    (rfp : List Char) (sel : PDate) (day : ℕ) (pf : Option (List Char)) (minD : ℚ)
    (odir : Option (List Char)) (regOv zoomOv : Option ColMap) (msg : List Char)
    (rt zt : Table) (rcm zcm : ColMap)
    (hr : load_registration_csv regRead regOv = Except.ok (rt, rcm))
    (hz : load_zoom_csv zoomRead zoomOv = Except.ok (zt, zcm)) :
    (process_attendance regRead zoomRead rfp sel day pf minD odir regOv zoomOv (some msg)).1.total_registrations
      = (process_attendance regRead zoomRead rfp sel day pf minD odir regOv zoomOv none).1.total_registrations
    ∧ (process_attendance regRead zoomRead rfp sel day pf minD odir regOv zoomOv (some msg)).1.total_zoom_participants
      = (process_attendance regRead zoomRead rfp sel day pf minD odir regOv zoomOv none).1.total_zoom_participants
    ∧ (process_attendance regRead zoomRead rfp sel day pf minD odir regOv zoomOv (some msg)).1.matched_present
      = (process_attendance regRead zoomRead rfp sel day pf minD odir regOv zoomOv none).1.matched_present
    ∧ (process_attendance regRead zoomRead rfp sel day pf minD odir regOv zoomOv (some msg)).1.matched_below_threshold
      = (process_attendance regRead zoomRead rfp sel day pf minD odir regOv zoomOv none).1.matched_below_threshold
    ∧ (process_attendance regRead zoomRead rfp sel day pf minD odir regOv zoomOv (some msg)).1.not_found_in_zoom
      = (process_attendance regRead zoomRead rfp sel day pf minD odir regOv zoomOv none).1.not_found_in_zoom
    ∧ (process_attendance regRead zoomRead rfp sel day pf minD odir regOv zoomOv (some msg)).1.unmatched_zoom_emails
      = (process_attendance regRead zoomRead rfp sel day pf minD odir regOv zoomOv none).1.unmatched_zoom_emails
    ∧ (process_attendance regRead zoomRead rfp sel day pf minD odir regOv zoomOv (some msg)).1.warnings
      = (process_attendance regRead zoomRead rfp sel day pf minD odir regOv zoomOv none).1.warnings
    ∧ (process_attendance regRead zoomRead rfp sel day pf minD odir regOv zoomOv (some msg)).1.errors
      = (process_attendance regRead zoomRead rfp sel day pf minD odir regOv zoomOv none).1.errors
        ++ ["Error saving output: ".toList ++ msg]
    ∧ (process_attendance regRead zoomRead rfp sel day pf minD odir regOv zoomOv (some msg)).1.output_filepath
      = [] := by
  rw [process_eq_runCore rfp sel day pf minD odir (some msg) hr hz,
    process_eq_runCore rfp sel day pf minD odir none hr hz]
  exact ⟨rfl, rfl, rfl, rfl, rfl, rfl, rfl, by simp [runCore], rfl⟩

/-- Witness for C7 at a concrete run. -/
theorem C7_write_failure_keeps_stats_witness :
    (process_attendance (Except.ok wReg) (Except.ok wZoom) "r.csv".toList wDate 1 none 60
        none none none (some "disk full".toList)).1.total_registrations
      = (process_attendance (Except.ok wReg) (Except.ok wZoom) "r.csv".toList wDate 1 none 60
        none none none none).1.total_registrations
    ∧ (process_attendance (Except.ok wReg) (Except.ok wZoom) "r.csv".toList wDate 1 none 60
        none none none (some "disk full".toList)).1.total_zoom_participants
      = (process_attendance (Except.ok wReg) (Except.ok wZoom) "r.csv".toList wDate 1 none 60
        none none none none).1.total_zoom_participants
    ∧ (process_attendance (Except.ok wReg) (Except.ok wZoom) "r.csv".toList wDate 1 none 60
        none none none (some "disk full".toList)).1.matched_present
      = (process_attendance (Except.ok wReg) (Except.ok wZoom) "r.csv".toList wDate 1 none 60
        none none none none).1.matched_present
    ∧ (process_attendance (Except.ok wReg) (Except.ok wZoom) "r.csv".toList wDate 1 none 60
        none none none (some "disk full".toList)).1.matched_below_threshold
      = (process_attendance (Except.ok wReg) (Except.ok wZoom) "r.csv".toList wDate 1 none 60
        none none none none).1.matched_below_threshold
    ∧ (process_attendance (Except.ok wReg) (Except.ok wZoom) "r.csv".toList wDate 1 none 60
        none none none (some "disk full".toList)).1.not_found_in_zoom
      = (process_attendance (Except.ok wReg) (Except.ok wZoom) "r.csv".toList wDate 1 none 60
        none none none none).1.not_found_in_zoom
    ∧ (process_attendance (Except.ok wReg) (Except.ok wZoom) "r.csv".toList wDate 1 none 60
        none none none (some "disk full".toList)).1.unmatched_zoom_emails
      = (process_attendance (Except.ok wReg) (Except.ok wZoom) "r.csv".toList wDate 1 none 60
        none none none none).1.unmatched_zoom_emails
    ∧ (process_attendance (Except.ok wReg) (Except.ok wZoom) "r.csv".toList wDate 1 none 60
        none none none (some "disk full".toList)).1.warnings
      = (process_attendance (Except.ok wReg) (Except.ok wZoom) "r.csv".toList wDate 1 none 60
        none none none none).1.warnings
    ∧ (process_attendance (Except.ok wReg) (Except.ok wZoom) "r.csv".toList wDate 1 none 60
        none none none (some "disk full".toList)).1.errors
      = (process_attendance (Except.ok wReg) (Except.ok wZoom) "r.csv".toList wDate 1 none 60
        none none none none).1.errors ++ ["Error saving output: ".toList ++ "disk full".toList]
    ∧ (process_attendance (Except.ok wReg) (Except.ok wZoom) "r.csv".toList wDate 1 none 60
        none none none (some "disk full".toList)).1.output_filepath = [] :=
  C7_write_failure_keeps_stats (Except.ok wReg) (Except.ok wZoom) "r.csv".toList wDate 1
    none 60 none none none "disk full".toList wReg wZoom wRegMap wZoomMap rfl rfl

/-! ## C6 — missing required columns abort the run, naming the keys -/

/-- The mapping the zoom loader ends up with (override, else detection). -/
def zoomColMapOf (t : Table) (ov : Option ColMap) : ColMap :=
  match ov with
  | some m => m
  | none => detect_zoom_columns t.headers

/-- The required zoom keys absent from that mapping. -/
def zoomMissingOf (t : Table) (ov : Option ColMap) : List FieldKey :=
  [FieldKey.emailK, FieldKey.durationK].filter
    (fun k => (lookupKey (zoomColMapOf t ov) k).isNone)

/-- The mapping the registration loader ends up with. -/
def regColMapOf (t : Table) (ov : Option ColMap) : ColMap :=
  match ov with
  | some m => m
  | none => detect_registration_columns t.headers

/-- The required registration keys absent from that mapping. -/
def regMissingOf (t : Table) (ov : Option ColMap) : List FieldKey :=
  [FieldKey.emailK, FieldKey.trainingDateK].filter
    (fun k => (lookupKey (regColMapOf t ov) k).isNone)

/-- C6: a required standardized key absent from the (detected or overridden)
mapping makes the loader fail with a message naming exactly the missing
standardized keys, and the whole run aborts with only the error list
populated and every count zero; with no key missing, the loader returns the
table unmodified together with the mapping.  Stated for both loaders. -/
theorem C6_missing_required_columns (zt rt : Table) (zoomOv regOv : Option ColMap)
    (regRead zoomRead : Except (List Char) Table) (rfp : List Char) (sel : PDate)
    (day : ℕ) (pf : Option (List Char)) (minD : ℚ) (odir : Option (List Char))
    (wf : Option (List Char)) :
    (zoomMissingOf zt zoomOv ≠ [] →
      load_zoom_csv (Except.ok zt) zoomOv
        = Except.error ("Missing required columns in Zoom CSV: ".toList
            ++ joinComma ((zoomMissingOf zt zoomOv).map keyName))
      ∧ ∀ rt2 rcm2, load_registration_csv regRead regOv = Except.ok (rt2, rcm2) →
          process_attendance regRead (Except.ok zt) rfp sel day pf minD odir regOv zoomOv wf
            = (emptyResult ["Zoom CSV: ".toList
                ++ ("Missing required columns in Zoom CSV: ".toList
                  ++ joinComma ((zoomMissingOf zt zoomOv).map keyName))], none))
    ∧ (zoomMissingOf zt zoomOv = [] →
        load_zoom_csv (Except.ok zt) zoomOv = Except.ok (zt, zoomColMapOf zt zoomOv))
    ∧ (regMissingOf rt regOv ≠ [] →
        load_registration_csv (Except.ok rt) regOv
          = Except.error ("Missing required columns: ".toList
              ++ joinComma ((regMissingOf rt regOv).map keyName))
        ∧ process_attendance (Except.ok rt) zoomRead rfp sel day pf minD odir regOv zoomOv wf
            = (emptyResult ["Registration CSV: ".toList
                ++ ("Missing required columns: ".toList
                  ++ joinComma ((regMissingOf rt regOv).map keyName))], none))
    ∧ (regMissingOf rt regOv = [] →
        load_registration_csv (Except.ok rt) regOv = Except.ok (rt, regColMapOf rt regOv)) := by
  have ez : load_zoom_csv (Except.ok zt) zoomOv
      = (if (zoomMissingOf zt zoomOv).isEmpty then Except.ok (zt, zoomColMapOf zt zoomOv)
         else Except.error ("Missing required columns in Zoom CSV: ".toList
            ++ joinComma ((zoomMissingOf zt zoomOv).map keyName))) := by
    simp only [load_zoom_csv, zoomColMapOf, zoomMissingOf]
  have er : load_registration_csv (Except.ok rt) regOv
      = (if (regMissingOf rt regOv).isEmpty then Except.ok (rt, regColMapOf rt regOv)
         else Except.error ("Missing required columns: ".toList
            ++ joinComma ((regMissingOf rt regOv).map keyName))) := by
    simp only [load_registration_csv, regColMapOf, regMissingOf]
  refine ⟨fun hne => ?_, fun he => ?_, fun hne => ?_, fun he => ?_⟩
  · have hz : load_zoom_csv (Except.ok zt) zoomOv
        = Except.error ("Missing required columns in Zoom CSV: ".toList
            ++ joinComma ((zoomMissingOf zt zoomOv).map keyName)) := by
      rw [ez, if_neg]
      simpa [List.isEmpty_iff] using hne
    refine ⟨hz, fun rt2 rcm2 hr2 => ?_⟩
    simp [process_attendance, hr2, hz]
  · rw [ez, if_pos]
    simpa [List.isEmpty_iff] using he
  · have hre : load_registration_csv (Except.ok rt) regOv
        = Except.error ("Missing required columns: ".toList
            ++ joinComma ((regMissingOf rt regOv).map keyName)) := by
      rw [er, if_neg]
      simpa [List.isEmpty_iff] using hne
    refine ⟨hre, ?_⟩
    simp [process_attendance, hre]
  · rw [er, if_pos]
    simpa [List.isEmpty_iff] using he

/-- A participation table with no header containing `duration` (the spec's
missing-required-column scenario). -/
def wZoomNoDur : Table :=
  { headers := ["Email".toList, "Time".toList],
    rows := [[Cell.cstr "a@x.com".toList, Cell.cstr "90".toList]] }

/-- Witness for C6: the zoom table lacking a Duration column fails with a
message naming `Duration`, the run aborts with zero counts, and the complete
tables load unmodified. -/
theorem C6_missing_required_columns_witness :
    load_zoom_csv (Except.ok wZoomNoDur) none
      = Except.error ("Missing required columns in Zoom CSV: ".toList
          ++ joinComma ((zoomMissingOf wZoomNoDur none).map keyName))
    ∧ process_attendance (Except.ok wReg) (Except.ok wZoomNoDur) "r.csv".toList wDate 1
        none 60 none none none none
        = (emptyResult ["Zoom CSV: ".toList
            ++ ("Missing required columns in Zoom CSV: ".toList
              ++ joinComma ((zoomMissingOf wZoomNoDur none).map keyName))], none)
    ∧ load_zoom_csv (Except.ok wZoom) none = Except.ok (wZoom, zoomColMapOf wZoom none)
    ∧ load_registration_csv (Except.ok wReg) none
        = Except.ok (wReg, regColMapOf wReg none) := by
  have h1 := C6_missing_required_columns wZoomNoDur wReg none none (Except.ok wReg)
    (Except.ok wZoomNoDur) "r.csv".toList wDate 1 none 60 none none
  have h2 := C6_missing_required_columns wZoom wReg none none (Except.ok wReg)
    (Except.ok wZoom) "r.csv".toList wDate 1 none 60 none none
  refine ⟨(h1.1 (by decide)).1, (h1.1 (by decide)).2 wReg wRegMap rfl, ?_, ?_⟩
  · exact h2.2.1 (by decide)
  · exact h2.2.2.2 (by decide)

/-! ## C10 — when inapplicable, the program filter is silently ignored -/

/-- C10: the program filter participates in the row mask only when it is a
truthy string different from `"All"` and a `Version` column is mapped
(`filterActive`); in every other case — including a non-empty filter with no
mapped `Version` column — the in-scope set is the date-only filter, the run
produces no error beyond a possible write error, and the only possible
warning is the zero-registrations one. -/
theorem C10_filter_applies_only_when_active (regRead zoomRead : Except (List Char) Table)
    (rfp : List Char) (sel : PDate) (day : ℕ) (pf : Option (List Char)) (minD : ℚ)
    (odir : Option (List Char)) (regOv zoomOv : Option ColMap) (wf : Option (List Char))
    (rt zt : Table) (rcm zcm : ColMap)
    (hr : load_registration_csv regRead regOv = Except.ok (rt, rcm))
    (hz : load_zoom_csv zoomRead zoomOv = Except.ok (zt, zcm))
    (hf : filterActive (prepMap rcm day) pf = false) :
    scopedRows (prepTable rt rcm day) (prepMap rcm day) pf sel
      = (prepTable rt rcm day).rows.filter
          (fun r => parse_date_cell
            (getCellR (prepTable rt rcm day).headers r (regDateCol (prepMap rcm day)))
            == some sel)
    ∧ (process_attendance regRead zoomRead rfp sel day pf minD odir regOv zoomOv wf).1.errors
        = (match wf with
           | none => []
           | some m => ["Error saving output: ".toList ++ m])
    ∧ ((process_attendance regRead zoomRead rfp sel day pf minD odir regOv zoomOv wf).1.total_registrations ≠ 0 →
        (process_attendance regRead zoomRead rfp sel day pf minD odir regOv zoomOv wf).1.warnings = [])
    ∧ (process_attendance regRead zoomRead rfp sel day pf minD odir regOv zoomOv wf).1.warnings.length ≤ 1 := by
  rw [process_eq_runCore rfp sel day pf minD odir wf hr hz]
  refine ⟨?_, rfl, ?_, ?_⟩
  · unfold scopedRows
    apply List.filter_congr
    intro r _
    simp [inScopeRow, hf]
  · intro hne
    simp only [runCore] at hne ⊢
    simp only [ne_eq] at hne
    rw [if_neg hne]
  · simp only [runCore]
    rcases Nat.eq_zero_or_pos (scopedRows (prepTable rt rcm day) (prepMap rcm day) pf sel).length with h | h
    · rw [if_pos h]
      simp
    · rw [if_neg (by omega)]
      simp

/-- A roster table carrying a program column, used to witness C10 with a
truthy filter that is ignored because no `Version` key is mapped. -/
def wRegOvMap : ColMap :=
  [(FieldKey.emailK, "Email".toList), (FieldKey.trainingDateK, "Training Date".toList)]

/-- Witness for C10: an override mapping without a `Version` key makes a
non-empty, non-`"All"` filter inapplicable. -/
theorem C10_filter_applies_only_when_active_witness :
    scopedRows (prepTable wReg wRegOvMap 1) (prepMap wRegOvMap 1) (some "Prog A".toList) wDate
      = (prepTable wReg wRegOvMap 1).rows.filter
          (fun r => parse_date_cell
            (getCellR (prepTable wReg wRegOvMap 1).headers r (regDateCol (prepMap wRegOvMap 1)))
            == some wDate)
    ∧ (process_attendance (Except.ok wReg) (Except.ok wZoom) "r.csv".toList wDate 1
        (some "Prog A".toList) 60 none (some wRegOvMap) none none).1.errors
        = (match (none : Option (List Char)) with
           | none => []
           | some m => ["Error saving output: ".toList ++ m])
    ∧ ((process_attendance (Except.ok wReg) (Except.ok wZoom) "r.csv".toList wDate 1
        (some "Prog A".toList) 60 none (some wRegOvMap) none none).1.total_registrations ≠ 0 →
        (process_attendance (Except.ok wReg) (Except.ok wZoom) "r.csv".toList wDate 1
        (some "Prog A".toList) 60 none (some wRegOvMap) none none).1.warnings = [])
    ∧ (process_attendance (Except.ok wReg) (Except.ok wZoom) "r.csv".toList wDate 1
        (some "Prog A".toList) 60 none (some wRegOvMap) none none).1.warnings.length ≤ 1 :=
  C10_filter_applies_only_when_active (Except.ok wReg) (Except.ok wZoom) "r.csv".toList
    wDate 1 (some "Prog A".toList) 60 none (some wRegOvMap) none none wReg wZoom
    wRegOvMap wZoomMap rfl rfl (by decide)

/-! ## C3 — the unmatched-participation list -/

/-- `strLe` is transitive. -/
theorem strLe_trans : ∀ a b c : List Char, strLe a b → strLe b c → strLe a c := by
  intro a b c h1 h2
  simp only [strLe, decide_eq_true_eq] at h1 h2 ⊢
  exact le_trans h1 h2

/-- `strLe` is total. -/
theorem strLe_total : ∀ a b : List Char, strLe a b || strLe b a := by
  intro a b
  simp only [strLe, Bool.or_eq_true, decide_eq_true_eq]
  exact le_total a b

/-- In a duplicate-free list, a member is counted exactly once (stated for
the structural `BEq` so it applies to the `List.count` of the statements
below). -/
theorem count_one_of_nodup_mem {α : Type} [BEq α] [LawfulBEq α] {l : List α} {a : α}
    (hd : l.Nodup) (h : a ∈ l) : l.count a = 1 := by
  induction l with
  | nil => simp at h
  | cons b l ih =>
    rw [List.count_cons]
    rcases List.mem_cons.mp h with rfl | hmem
    · have h0 : l.count a = 0 :=
        List.count_eq_zero.mpr (List.nodup_cons.mp hd).1
      simp [h0]
    · have hne : a ≠ b := by
        rintro rfl
        exact (List.nodup_cons.mp hd).1 hmem
      rw [ih (List.nodup_cons.mp hd).2 hmem]
      simp [Ne.symm hne]

/-- The aggregate key list has no duplicates. -/
theorem zoomKeys_nodup (zt : Table) (zcm : ColMap) : (zoomKeys zt zcm).Nodup :=
  (List.nodup_dedup _).filter _

/-- C3: `unmatched_zoom_emails` holds exactly the aggregate keys that are not
among the non-empty normalized identities of the in-scope roster rows, each
exactly once, sorted ascending by identity string. -/
theorem C3_unmatched_zoom_emails (regRead zoomRead : Except (List Char) Table)
    (rfp : List Char) (sel : PDate) (day : ℕ) (pf : Option (List Char)) (minD : ℚ)
    (odir : Option (List Char)) (regOv zoomOv : Option ColMap) (wf : Option (List Char))
    (rt zt : Table) (rcm zcm : ColMap)
    (hr : load_registration_csv regRead regOv = Except.ok (rt, rcm))
    (hz : load_zoom_csv zoomRead zoomOv = Except.ok (zt, zcm)) :
    (∀ e, e ∈ (process_attendance regRead zoomRead rfp sel day pf minD odir regOv zoomOv wf).1.unmatched_zoom_emails
       ↔ e ∈ zoomKeys zt zcm
         ∧ e ∉ scopedEmails (prepTable rt rcm day) (prepMap rcm day) pf sel)
    ∧ (∀ e ∈ (process_attendance regRead zoomRead rfp sel day pf minD odir regOv zoomOv wf).1.unmatched_zoom_emails,
        (process_attendance regRead zoomRead rfp sel day pf minD odir regOv zoomOv wf).1.unmatched_zoom_emails.count e = 1)
    ∧ List.Pairwise (fun a b : List Char => a ≤ b)
        (process_attendance regRead zoomRead rfp sel day pf minD odir regOv zoomOv wf).1.unmatched_zoom_emails := by
  rw [process_eq_runCore rfp sel day pf minD odir wf hr hz]
  have hu : (runCore rt rcm zt zcm sel day pf minD (odir.getD (dirnameOf rfp)) wf).1.unmatched_zoom_emails
      = unmatchedOf (prepTable rt rcm day) (prepMap rcm day) pf sel zt zcm := rfl
  rw [hu]
  have hnd : (unmatchedOf (prepTable rt rcm day) (prepMap rcm day) pf sel zt zcm).Nodup := by
    unfold unmatchedOf
    exact (List.mergeSort_perm _ _).nodup_iff.mpr ((zoomKeys_nodup zt zcm).filter _)
  refine ⟨?_, ?_, ?_⟩
  · intro e
    unfold unmatchedOf
    simp [List.mem_filter]
  · intro e he
    exact count_one_of_nodup_mem hnd he
  · unfold unmatchedOf
    exact (List.sorted_mergeSort strLe_trans strLe_total _).imp
      (fun h => by simpa [strLe] using h)

/-- Witness for C3 at a concrete run. -/
theorem C3_unmatched_zoom_emails_witness :
    (∀ e, e ∈ (process_attendance (Except.ok wReg) (Except.ok wZoom) "r.csv".toList wDate 1
          none 60 none none none none).1.unmatched_zoom_emails
       ↔ e ∈ zoomKeys wZoom wZoomMap
         ∧ e ∉ scopedEmails (prepTable wReg wRegMap 1) (prepMap wRegMap 1) none wDate)
    ∧ (∀ e ∈ (process_attendance (Except.ok wReg) (Except.ok wZoom) "r.csv".toList wDate 1
          none 60 none none none none).1.unmatched_zoom_emails,
        (process_attendance (Except.ok wReg) (Except.ok wZoom) "r.csv".toList wDate 1
          none 60 none none none none).1.unmatched_zoom_emails.count e = 1)
    ∧ List.Pairwise (fun a b : List Char => a ≤ b)
        (process_attendance (Except.ok wReg) (Except.ok wZoom) "r.csv".toList wDate 1
          none 60 none none none none).1.unmatched_zoom_emails :=
  C3_unmatched_zoom_emails (Except.ok wReg) (Except.ok wZoom) "r.csv".toList wDate 1
    none 60 none none none none wReg wZoom wRegMap wZoomMap rfl rfl

/-! ## C1 — per-row classification and the marks written -/

/-- Rectangularity of a table (every frame produced by `read_csv` has one
cell per header in every row). -/
def rect (t : Table) : Prop := ∀ r ∈ t.rows, r.length = t.headers.length

/-- A column index returned by `colIdx` is within the header list. -/
theorem colIdx_lt {hs : List (List Char)} {n : List Char} {i : ℕ}
    (h : colIdx hs n = some i) : i < hs.length := by
  induction hs generalizing i with
  | nil => simp [colIdx] at h
  | cons a t ih =>
    unfold colIdx at h
    by_cases hc : a == n
    · rw [if_pos hc] at h
      cases h
      simp
    · rw [if_neg hc] at h
      rcases Option.map_eq_some'.mp h with ⟨j, hj, rfl⟩
      simpa using Nat.succ_lt_succ (ih hj)

/-- Overwriting a cell does not change the row length. -/
theorem length_setCellR (hs : List (List Char)) (row : List Cell) (n : List Char)
    (c : Cell) : (setCellR hs row n c).length = row.length := by
  unfold setCellR
  cases colIdx hs n <;> simp

/-- Reading back the cell just written. -/
theorem getCellR_setCellR_self {hs : List (List Char)} {row : List Cell}
    {n : List Char} {c : Cell} (hl : row.length = hs.length)
    (hi : (colIdx hs n).isSome) :
    getCellR hs (setCellR hs row n c) n = c := by
  rcases Option.isSome_iff_exists.mp hi with ⟨i, hci⟩
  have hlt : i < row.length := hl ▸ colIdx_lt hci
  simp only [getCellR, setCellR, hci]
  rw [List.getD_eq_getElem?_getD, List.getElem?_set_self hlt]
  rfl

/-- Cells at other positions are untouched by an overwrite. -/
theorem getD_setCellR_ne {hs : List (List Char)} {row : List Cell} {n : List Char}
    {c : Cell} {j : ℕ} (hj : ∀ i, colIdx hs n = some i → j ≠ i) :
    (setCellR hs row n c).getD j Cell.miss = row.getD j Cell.miss := by
  unfold setCellR
  cases hci : colIdx hs n with
  | none => rfl
  | some i =>
    rw [List.getD_eq_getElem?_getD, List.getElem?_set_ne (Ne.symm (hj i hci)),
      ← List.getD_eq_getElem?_getD]

/-- Step 2 preserves rectangularity. -/
theorem prepTable_rect {t : Table} {cm : ColMap} {day : ℕ} (h : rect t) :
    rect (prepTable t cm day) := by
  unfold prepTable
  cases hk : lookupKey cm (attKeyOf day) with
  | some n0 =>
    intro r hr
    simp only [mapColumn, List.mem_map] at hr ⊢
    rcases hr with ⟨r0, hr0, rfl⟩
    rw [length_setCellR]
    exact h r0 hr0
  | none =>
    intro r hr
    simp only [mapColumn, List.mem_map] at hr ⊢
    rcases hr with ⟨r0, hr0, rfl⟩
    rw [length_setCellR]
    unfold setColumn at hr0 ⊢
    by_cases hci : (colIdx t.headers (prepAttName cm day)).isSome
    · rw [if_pos hci] at hr0 ⊢
      simp only [List.mem_map] at hr0
      rcases hr0 with ⟨r1, hr1, rfl⟩
      rw [length_setCellR]
      exact h r1 hr1
    · rw [if_neg hci] at hr0 ⊢
      simp only [List.mem_map] at hr0
      rcases hr0 with ⟨r1, hr1, rfl⟩
      simp [h r1 hr1]

/-- `getD` inside the bounds is `getElem`. -/
theorem getD_of_lt {α : Type} {l : List α} {i : ℕ} (h : i < l.length) (d : α) :
    l.getD i d = l[i] := by
  rw [List.getD_eq_getElem?_getD, List.getElem?_eq_getElem h]
  rfl

/-- The mark written for a row, spelled as the four-case classification of
the claim. -/
theorem markChar_classify (hs : List (List Char)) (cm : ColMap) (zt : Table)
    (zcm : ColMap) (minD : ℚ) (r : List Cell) :
    markChar (classifyRow hs cm zt zcm minD r)
      = (if (normalize_email (getCellR hs r (regEmailCol cm))).isEmpty then ['N']
         else
           match zoomLookup zt zcm (normalize_email (getCellR hs r (regEmailCol cm))) with
           | some d => if minD ≤ d then ['Y'] else ['N']
           | none => ['N']) := by
  unfold classifyRow
  by_cases he : (normalize_email (getCellR hs r (regEmailCol cm))).isEmpty = true
  · simp [he, markChar]
  · simp only [Bool.not_eq_true] at he
    cases hl : zoomLookup zt zcm (normalize_email (getCellR hs r (regEmailCol cm))) with
    | none => simp [he, hl, markChar]
    | some d =>
      by_cases hd : minD ≤ d
      · simp [he, hl, hd, markChar]
      · simp [he, hl, hd, markChar]

/-- A row is classified present iff its identity is non-empty and its
aggregate entry meets the threshold. -/
theorem classify_pres_iff (hs : List (List Char)) (cm : ColMap) (zt : Table)
    (zcm : ColMap) (minD : ℚ) (r : List Cell) :
    (classifyRow hs cm zt zcm minD r == Mark.pres) = true
      ↔ (!(normalize_email (getCellR hs r (regEmailCol cm))).isEmpty
          && Option.any (fun d => decide (minD ≤ d))
              (zoomLookup zt zcm (normalize_email (getCellR hs r (regEmailCol cm))))) = true := by
  unfold classifyRow
  by_cases he : (normalize_email (getCellR hs r (regEmailCol cm))).isEmpty = true
  · simp [he]
  · simp only [Bool.not_eq_true] at he
    cases hl : zoomLookup zt zcm (normalize_email (getCellR hs r (regEmailCol cm))) with
    | none => simp [he, hl]
    | some d =>
      by_cases hd : minD ≤ d
      · simp [he, hl, hd]
      · simp [he, hl, hd]

/-- A row is classified below-threshold iff its identity is non-empty and its
aggregate entry is under the threshold. -/
theorem classify_below_iff (hs : List (List Char)) (cm : ColMap) (zt : Table)
    (zcm : ColMap) (minD : ℚ) (r : List Cell) :
    (classifyRow hs cm zt zcm minD r == Mark.below) = true
      ↔ (!(normalize_email (getCellR hs r (regEmailCol cm))).isEmpty
          && Option.any (fun d => decide (d < minD))
              (zoomLookup zt zcm (normalize_email (getCellR hs r (regEmailCol cm))))) = true := by
  unfold classifyRow
  by_cases he : (normalize_email (getCellR hs r (regEmailCol cm))).isEmpty = true
  · simp [he]
  · simp only [Bool.not_eq_true] at he
    cases hl : zoomLookup zt zcm (normalize_email (getCellR hs r (regEmailCol cm))) with
    | none => simp [he, hl]
    | some d =>
      by_cases hd : minD ≤ d
      · simp [he, hl, hd, not_lt.mpr hd]
      · simp [he, hl, hd, lt_of_not_le hd]

/-- A row is classified not-found iff its identity is empty or has no
aggregate entry. -/
theorem classify_nf_iff (hs : List (List Char)) (cm : ColMap) (zt : Table)
    (zcm : ColMap) (minD : ℚ) (r : List Cell) :
    (classifyRow hs cm zt zcm minD r == Mark.nf) = true
      ↔ ((normalize_email (getCellR hs r (regEmailCol cm))).isEmpty
          || (zoomLookup zt zcm (normalize_email (getCellR hs r (regEmailCol cm)))).isNone) = true := by
  unfold classifyRow
  by_cases he : (normalize_email (getCellR hs r (regEmailCol cm))).isEmpty = true
  · simp [he]
  · simp only [Bool.not_eq_true] at he
    cases hl : zoomLookup zt zcm (normalize_email (getCellR hs r (regEmailCol cm))) with
    | none => simp [he, hl]
    | some d =>
      by_cases hd : minD ≤ d
      · simp [he, hl, hd]
      · simp [he, hl, hd]

/-- C1: for every in-scope roster row the attendance field of the output
table is `"N"` when the normalized identity is empty, `"Y"` when the
identity has a participation-aggregate entry meeting the threshold, `"N"`
when the entry is below the threshold, and `"N"` when there is no entry; the
three counters count exactly those cases. -/
theorem C1_per_row_classification (regRead zoomRead : Except (List Char) Table)
    (rfp : List Char) (sel : PDate) (day : ℕ) (pf : Option (List Char)) (minD : ℚ)
    (odir : Option (List Char)) (regOv zoomOv : Option ColMap) (wf : Option (List Char))
    (rt zt : Table) (rcm zcm : ColMap)
    (hr : load_registration_csv regRead regOv = Except.ok (rt, rcm))
    (hz : load_zoom_csv zoomRead zoomOv = Except.ok (zt, zcm))
    (hrect : rect rt)
    (hatt : (colIdx (prepTable rt rcm day).headers (prepAttName rcm day)).isSome) :
    (∀ i, i < (prepTable rt rcm day).rows.length →
      inScopeRow (prepTable rt rcm day).headers (prepMap rcm day) pf sel
        ((prepTable rt rcm day).rows.getD i []) = true →
      getCellR (prepTable rt rcm day).headers
        (((process_attendance regRead zoomRead rfp sel day pf minD odir regOv zoomOv wf).2.getD
            ⟨[], []⟩).rows.getD i [])
        (prepAttName rcm day)
        = Cell.cstr
            (if (normalize_email (getCellR (prepTable rt rcm day).headers
                  ((prepTable rt rcm day).rows.getD i [])
                  (regEmailCol (prepMap rcm day)))).isEmpty
             then ['N']
             else
               match zoomLookup zt zcm (normalize_email (getCellR (prepTable rt rcm day).headers
                  ((prepTable rt rcm day).rows.getD i [])
                  (regEmailCol (prepMap rcm day)))) with
               | some d => if minD ≤ d then ['Y'] else ['N']
               | none => ['N']))
    ∧ (process_attendance regRead zoomRead rfp sel day pf minD odir regOv zoomOv wf).1.matched_present
        = (scopedRows (prepTable rt rcm day) (prepMap rcm day) pf sel).countP
            (fun r => !(normalize_email (getCellR (prepTable rt rcm day).headers r
                  (regEmailCol (prepMap rcm day)))).isEmpty
              && Option.any (fun d => decide (minD ≤ d))
                  (zoomLookup zt zcm (normalize_email (getCellR (prepTable rt rcm day).headers r
                    (regEmailCol (prepMap rcm day))))))
    ∧ (process_attendance regRead zoomRead rfp sel day pf minD odir regOv zoomOv wf).1.matched_below_threshold
        = (scopedRows (prepTable rt rcm day) (prepMap rcm day) pf sel).countP
            (fun r => !(normalize_email (getCellR (prepTable rt rcm day).headers r
                  (regEmailCol (prepMap rcm day)))).isEmpty
              && Option.any (fun d => decide (d < minD))
                  (zoomLookup zt zcm (normalize_email (getCellR (prepTable rt rcm day).headers r
                    (regEmailCol (prepMap rcm day))))))
    ∧ (process_attendance regRead zoomRead rfp sel day pf minD odir regOv zoomOv wf).1.not_found_in_zoom
        = (scopedRows (prepTable rt rcm day) (prepMap rcm day) pf sel).countP
            (fun r => (normalize_email (getCellR (prepTable rt rcm day).headers r
                  (regEmailCol (prepMap rcm day)))).isEmpty
              || (zoomLookup zt zcm (normalize_email (getCellR (prepTable rt rcm day).headers r
                  (regEmailCol (prepMap rcm day))))).isNone) := by
  rw [process_eq_runCore rfp sel day pf minD odir wf hr hz]
  refine ⟨?_, ?_, ?_, ?_⟩
  · intro i hi hscope
    have hout : ((some (runCore rt rcm zt zcm sel day pf minD (odir.getD (dirnameOf rfp)) wf).2).getD
        ⟨[], []⟩).rows
        = outRowsOf (prepTable rt rcm day) (prepMap rcm day) (prepAttName rcm day) zt zcm pf sel minD := rfl
    rw [hout]
    unfold outRowsOf
    rw [getD_of_lt (by simpa using hi), List.getElem_map]
    rw [getD_of_lt hi] at hscope ⊢
    rw [if_pos hscope]
    rw [getCellR_setCellR_self
      (prepTable_rect hrect _ (List.getElem_mem hi)) hatt]
    rw [markChar_classify]
  · exact List.countP_congr (fun r _ => classify_pres_iff _ _ _ _ _ r)
  · exact List.countP_congr (fun r _ => classify_below_iff _ _ _ _ _ r)
  · exact List.countP_congr (fun r _ => classify_nf_iff _ _ _ _ _ r)

/-- Witness for C1: the concrete run, marking of row 0 and the present
count. -/
theorem C1_per_row_classification_witness :
    getCellR (prepTable wReg wRegMap 1).headers
      (((process_attendance (Except.ok wReg) (Except.ok wZoom) "r.csv".toList wDate 1
          none 60 none none none none).2.getD ⟨[], []⟩).rows.getD 0 [])
      (prepAttName wRegMap 1)
      = Cell.cstr
          (if (normalize_email (getCellR (prepTable wReg wRegMap 1).headers
                ((prepTable wReg wRegMap 1).rows.getD 0 [])
                (regEmailCol (prepMap wRegMap 1)))).isEmpty
           then ['N']
           else
             match zoomLookup wZoom wZoomMap (normalize_email (getCellR (prepTable wReg wRegMap 1).headers
                ((prepTable wReg wRegMap 1).rows.getD 0 [])
                (regEmailCol (prepMap wRegMap 1)))) with
             | some d => if (60 : ℚ) ≤ d then ['Y'] else ['N']
             | none => ['N'])
    ∧ (process_attendance (Except.ok wReg) (Except.ok wZoom) "r.csv".toList wDate 1
        none 60 none none none none).1.matched_present
        = (scopedRows (prepTable wReg wRegMap 1) (prepMap wRegMap 1) none wDate).countP
            (fun r => !(normalize_email (getCellR (prepTable wReg wRegMap 1).headers r
                  (regEmailCol (prepMap wRegMap 1)))).isEmpty
              && Option.any (fun d => decide ((60 : ℚ) ≤ d))
                  (zoomLookup wZoom wZoomMap (normalize_email (getCellR (prepTable wReg wRegMap 1).headers r
                    (regEmailCol (prepMap wRegMap 1)))))) := by
  have hrect : rect wReg := by
    intro r hr
    simp only [wReg, List.mem_singleton] at hr
    subst hr
    rfl
  have h := C1_per_row_classification (Except.ok wReg) (Except.ok wZoom) "r.csv".toList
    wDate 1 none 60 none none none none wReg wZoom wRegMap wZoomMap rfl rfl
    hrect rfl
  exact ⟨h.1 0 (by decide) rfl, h.2.1⟩

/-! ## C8 — frame: only the attendance field of in-scope rows is marked -/

/-- `getD` through a `map`, inside the bounds. -/
theorem getD_map_of_lt {α β : Type} (f : α → β) {l : List α} {i : ℕ}
    (h : i < l.length) (d : β) (d' : α) :
    (l.map f).getD i d = f (l.getD i d') := by
  rw [getD_of_lt (by simpa using h), List.getElem_map, getD_of_lt h]

/-- Step 2 does not change any cell outside the attendance column. -/
theorem prepTable_cell_ne {t : Table} {cm : ColMap} {day : ℕ} (hrect : rect t)
    {i j : ℕ} (hi : i < t.rows.length) (hj : j < t.headers.length)
    (hne : ∀ k, colIdx (prepTable t cm day).headers (prepAttName cm day) = some k → j ≠ k) :
    ((prepTable t cm day).rows.getD i []).getD j Cell.miss
      = (t.rows.getD i []).getD j Cell.miss := by
  unfold prepTable at hne ⊢
  cases hk : lookupKey cm (attKeyOf day) with
  | some n0 =>
    simp only [hk, mapColumn] at hne ⊢
    rw [getD_map_of_lt _ hi _ [], getD_setCellR_ne hne]
  | none =>
    simp only [hk, mapColumn] at hne ⊢
    unfold setColumn at hne ⊢
    by_cases hex : (colIdx t.headers (prepAttName cm day)).isSome
    · rw [if_pos hex] at hne ⊢
      simp only at hne ⊢
      rw [getD_map_of_lt _ (by simpa using hi) _ [], getD_setCellR_ne hne,
        getD_map_of_lt _ hi _ [], getD_setCellR_ne hne]
    · rw [if_neg hex] at hne ⊢
      simp only at hne ⊢
      rw [getD_map_of_lt _ (by simpa using hi) _ [], getD_setCellR_ne hne,
        getD_map_of_lt _ hi _ []]
      have hlen : (t.rows.getD i []).length = t.headers.length := by
        rw [getD_of_lt hi]
        exact hrect _ (List.getElem_mem hi)
      rw [List.getD_eq_getElem?_getD, List.getElem?_append_left (by omega),
        ← List.getD_eq_getElem?_getD]

/-- The marking step does not change any cell outside the attendance
column. -/
theorem outRowsOf_cell_ne {t : Table} {cm : ColMap} {attName : List Char}
    {zt : Table} {zcm : ColMap} {pf : Option (List Char)} {sel : PDate} {minD : ℚ}
    {i j : ℕ} (hi : i < t.rows.length)
    (hne : ∀ k, colIdx t.headers attName = some k → j ≠ k) :
    ((outRowsOf t cm attName zt zcm pf sel minD).getD i []).getD j Cell.miss
      = (t.rows.getD i []).getD j Cell.miss := by
  unfold outRowsOf
  rw [getD_map_of_lt _ hi _ []]
  by_cases hsc : inScopeRow t.headers cm pf sel (t.rows.getD i []) = true
  · rw [if_pos hsc, getD_setCellR_ne hne]
  · rw [if_neg hsc]

/-- Step 2 keeps the number of rows. -/
theorem prepTable_rows_length (t : Table) (cm : ColMap) (day : ℕ) :
    (prepTable t cm day).rows.length = t.rows.length := by
  unfold prepTable mapColumn setColumn
  cases lookupKey cm (attKeyOf day) with
  | some n0 => simp
  | none =>
    by_cases hex : (colIdx t.headers (prepAttName cm day)).isSome
    · simp [hex]
    · simp [hex]

/-- Appending a fresh column name finds it right after the old headers. -/
theorem colIdx_append_self {hs : List (List Char)} {n : List Char}
    (h : colIdx hs n = none) : colIdx (hs ++ [n]) n = some hs.length := by
  induction hs with
  | nil => simp [colIdx]
  | cons a t ih =>
    rw [List.cons_append]
    by_cases hc : a == n
    · exfalso
      unfold colIdx at h
      rw [if_pos hc] at h
      cases h
    · unfold colIdx at h ⊢
      rw [if_neg hc] at h ⊢
      rw [ih (Option.map_eq_none'.mp h)]
      simp

/-- The last element of one appended cell. -/
theorem getD_append_length {α : Type} (l : List α) (c d : α) :
    (l ++ [c]).getD l.length d = c := by
  rw [List.getD_eq_getElem?_getD, List.getElem?_append_right (le_refl _)]
  simp

/-- Step 2 when the attendance key is already mapped. -/
theorem prepTable_eq_some {t : Table} {cm : ColMap} {day : ℕ} {n0 : List Char}
    (hk : lookupKey cm (attKeyOf day) = some n0) :
    prepTable t cm day = mapColumn t (prepAttName cm day) coerceCell := by
  unfold prepTable
  rw [hk]

/-- Step 2 when the attendance key is not mapped. -/
theorem prepTable_eq_none {t : Table} {cm : ColMap} {day : ℕ}
    (hk : lookupKey cm (attKeyOf day) = none) :
    prepTable t cm day
      = mapColumn (setColumn t (prepAttName cm day) (Cell.cstr []))
          (prepAttName cm day) coerceCell := by
  unfold prepTable
  rw [hk]

/-- `setColumn` on an existing column overwrites it. -/
theorem setColumn_eq_over {t : Table} {n : List Char} {c : Cell}
    (hex : (colIdx t.headers n).isSome) :
    setColumn t n c
      = { headers := t.headers, rows := t.rows.map (fun r => setCellR t.headers r n c) } := by
  unfold setColumn
  rw [if_pos hex]

/-- `setColumn` on a fresh name appends the column. -/
theorem setColumn_eq_app {t : Table} {n : List Char} {c : Cell}
    (hex : ¬ (colIdx t.headers n).isSome) :
    setColumn t n c
      = { headers := t.headers ++ [n], rows := t.rows.map (fun r => r ++ [c]) } := by
  unfold setColumn
  rw [if_neg hex]

/-- The attendance cell of a prepared row is the coerced original cell, as
long as the attendance column was mapped, or is genuinely new. -/
theorem prepTable_att_coerce {t : Table} {cm : ColMap} {day : ℕ} (hrect : rect t)
    {i : ℕ} (hi : i < t.rows.length)
    (hatt : (colIdx (prepTable t cm day).headers (prepAttName cm day)).isSome)
    (hAB : (lookupKey cm (attKeyOf day)).isSome
           ∨ colIdx t.headers (prepAttName cm day) = none) :
    getCellR (prepTable t cm day).headers ((prepTable t cm day).rows.getD i [])
        (prepAttName cm day)
      = coerceCell (getCellR t.headers (t.rows.getD i []) (prepAttName cm day)) := by
  have hlen : (t.rows.getD i []).length = t.headers.length := by
    rw [getD_of_lt hi]
    exact hrect _ (List.getElem_mem hi)
  cases hk : lookupKey cm (attKeyOf day) with
  | some n0 =>
    rw [prepTable_eq_some hk] at hatt ⊢
    simp only [mapColumn] at hatt ⊢
    rw [getD_map_of_lt _ hi _ []]
    exact getCellR_setCellR_self hlen hatt
  | none =>
    have hnew : colIdx t.headers (prepAttName cm day) = none := by
      rcases hAB with hA | hB
      · rw [hk] at hA
        cases hA
      · exact hB
    rw [prepTable_eq_none hk, setColumn_eq_app (by simp [hnew])] at hatt ⊢
    simp only [mapColumn] at hatt ⊢
    rw [getD_map_of_lt _ (by simpa using hi) _ [], getD_map_of_lt _ hi _ []]
    have hlen2 : (t.rows.getD i [] ++ [Cell.cstr []]).length = (t.headers ++ [prepAttName cm day]).length := by
      rw [List.length_append, List.length_append, hlen]
      rfl
    rw [getCellR_setCellR_self hlen2 hatt]
    have hci : colIdx (t.headers ++ [prepAttName cm day]) (prepAttName cm day)
        = some t.headers.length := colIdx_append_self hnew
    have hinner : getCellR (t.headers ++ [prepAttName cm day])
        (t.rows.getD i [] ++ [Cell.cstr []]) (prepAttName cm day) = Cell.cstr [] := by
      simp only [getCellR, hci]
      rw [← hlen, getD_append_length]
    rw [hinner]
    simp only [getCellR, hnew, coerceCell]

/-- When the attendance key is unmapped, step 2 creates the column with
`reg_df[att_col_name] = ""` (processor.py line 105): every row's attendance
cell — including the values of a previously existing, unmapped column of the
same name, which line 105 clears — is the empty string after coercion. -/
theorem prepTable_att_created {t : Table} {cm : ColMap} {day : ℕ} (hrect : rect t)
    {i : ℕ} (hi : i < t.rows.length)
    (hk : lookupKey cm (attKeyOf day) = none)
    (hatt : (colIdx (prepTable t cm day).headers (prepAttName cm day)).isSome) :
    getCellR (prepTable t cm day).headers ((prepTable t cm day).rows.getD i [])
        (prepAttName cm day)
      = Cell.cstr [] := by
  have hlen : (t.rows.getD i []).length = t.headers.length := by
    rw [getD_of_lt hi]
    exact hrect _ (List.getElem_mem hi)
  rw [prepTable_eq_none hk] at hatt ⊢
  by_cases hex : (colIdx t.headers (prepAttName cm day)).isSome
  · rw [setColumn_eq_over hex] at hatt ⊢
    simp only [mapColumn] at hatt ⊢
    rw [getD_map_of_lt _ (by simpa using hi) _ [], getD_map_of_lt _ hi _ []]
    rw [getCellR_setCellR_self (by rw [length_setCellR]; exact hlen) hatt]
    rw [getCellR_setCellR_self hlen hatt]
    rfl
  · rw [setColumn_eq_app hex] at hatt ⊢
    simp only [mapColumn] at hatt ⊢
    rw [getD_map_of_lt _ (by simpa using hi) _ [], getD_map_of_lt _ hi _ []]
    have hlen2 : (t.rows.getD i [] ++ [Cell.cstr []]).length
        = (t.headers ++ [prepAttName cm day]).length := by
      rw [List.length_append, List.length_append, hlen]
      rfl
    rw [getCellR_setCellR_self hlen2 hatt]
    have hnew : colIdx t.headers (prepAttName cm day) = none := by
      cases hcc : colIdx t.headers (prepAttName cm day) with
      | none => rfl
      | some k =>
        rw [hcc] at hex
        exact absurd rfl hex
    have hci : colIdx (t.headers ++ [prepAttName cm day]) (prepAttName cm day)
        = some t.headers.length := colIdx_append_self hnew
    have hinner : getCellR (t.headers ++ [prepAttName cm day])
        (t.rows.getD i [] ++ [Cell.cstr []]) (prepAttName cm day) = Cell.cstr [] := by
      simp only [getCellR, hci]
      rw [← hlen, getD_append_length]
    rw [hinner]
    rfl

/-- The headers of the prepared table: unchanged, or one appended attendance
column. -/
theorem prepTable_headers (t : Table) (cm : ColMap) (day : ℕ) :
    (prepTable t cm day).headers = t.headers
    ∨ (prepTable t cm day).headers = t.headers ++ [prepAttName cm day] := by
  cases hk : lookupKey cm (attKeyOf day) with
  | some n0 =>
    rw [prepTable_eq_some hk]
    exact Or.inl rfl
  | none =>
    rw [prepTable_eq_none hk]
    by_cases hex : (colIdx t.headers (prepAttName cm day)).isSome
    · rw [setColumn_eq_over hex]
      exact Or.inl rfl
    · rw [setColumn_eq_app hex]
      exact Or.inr rfl

/-- C8 (amended): every cell outside the attendance column survives into the
output table unchanged; the header list is the original one, possibly with
the attendance column appended; and the attendance cell of an out-of-scope
row is — when the attendance key is mapped — the string coercion of its
original value, and — when the key is unmapped, so that line 105 creates
(or clears an existing same-named) column — the empty string; in neither
case a fresh mark.  (The strict reading of the claim — out-of-scope rows
bit-for-bit untouched — fails because line 111 coerces the whole attendance
column; see the counterexample.) -/
theorem C8_frame_amended (regRead zoomRead : Except (List Char) Table)
    (rfp : List Char) (sel : PDate) (day : ℕ) (pf : Option (List Char)) (minD : ℚ)
    (odir : Option (List Char)) (regOv zoomOv : Option ColMap) (wf : Option (List Char))
    (rt zt : Table) (rcm zcm : ColMap)
    (hr : load_registration_csv regRead regOv = Except.ok (rt, rcm))
    (hz : load_zoom_csv zoomRead zoomOv = Except.ok (zt, zcm))
    (hrect : rect rt)
    (hatt : (colIdx (prepTable rt rcm day).headers (prepAttName rcm day)).isSome) :
    (((process_attendance regRead zoomRead rfp sel day pf minD odir regOv zoomOv wf).2.getD
        ⟨[], []⟩).headers = rt.headers
      ∨ ((process_attendance regRead zoomRead rfp sel day pf minD odir regOv zoomOv wf).2.getD
        ⟨[], []⟩).headers = rt.headers ++ [prepAttName rcm day])
    ∧ (∀ i j, i < rt.rows.length → j < rt.headers.length →
        (∀ k, colIdx (prepTable rt rcm day).headers (prepAttName rcm day) = some k → j ≠ k) →
        ((((process_attendance regRead zoomRead rfp sel day pf minD odir regOv zoomOv wf).2.getD
            ⟨[], []⟩).rows.getD i []).getD j Cell.miss
          = (rt.rows.getD i []).getD j Cell.miss))
    ∧ (∀ i, i < rt.rows.length →
        inScopeRow (prepTable rt rcm day).headers (prepMap rcm day) pf sel
          ((prepTable rt rcm day).rows.getD i []) = false →
        getCellR (prepTable rt rcm day).headers
          (((process_attendance regRead zoomRead rfp sel day pf minD odir regOv zoomOv wf).2.getD
            ⟨[], []⟩).rows.getD i [])
          (prepAttName rcm day)
          = (match lookupKey rcm (attKeyOf day) with
             | some _ =>
                 coerceCell (getCellR rt.headers (rt.rows.getD i []) (prepAttName rcm day))
             | none => Cell.cstr [])) := by
  rw [process_eq_runCore rfp sel day pf minD odir wf hr hz]
  have hout : ((some (runCore rt rcm zt zcm sel day pf minD (odir.getD (dirnameOf rfp)) wf).2).getD
      ⟨[], []⟩)
      = ⟨(prepTable rt rcm day).headers,
         outRowsOf (prepTable rt rcm day) (prepMap rcm day) (prepAttName rcm day) zt zcm pf sel minD⟩ := rfl
  rw [hout]
  refine ⟨prepTable_headers rt rcm day, ?_, ?_⟩
  · intro i j hi hj hne
    have hip : i < (prepTable rt rcm day).rows.length := by
      rw [prepTable_rows_length]
      exact hi
    rw [outRowsOf_cell_ne hip hne]
    exact prepTable_cell_ne hrect hi hj hne
  · intro i hi hsc
    have hip : i < (prepTable rt rcm day).rows.length := by
      rw [prepTable_rows_length]
      exact hi
    have hor : (outRowsOf (prepTable rt rcm day) (prepMap rcm day) (prepAttName rcm day)
        zt zcm pf sel minD).getD i [] = (prepTable rt rcm day).rows.getD i [] := by
      unfold outRowsOf
      rw [getD_map_of_lt _ hip _ [],
        if_neg (fun hcon => by rw [hcon] at hsc; cases hsc)]
    rw [hor]
    cases hk : lookupKey rcm (attKeyOf day) with
    | some n0 =>
      exact prepTable_att_coerce hrect hi hatt (Or.inl (by rw [hk]; rfl))
    | none =>
      exact prepTable_att_created hrect hi hk hatt

/-- A roster with a mapped attendance column and one out-of-scope row whose
attendance cell is missing. -/
def c8Reg : Table :=
  { headers := ["Email".toList, "Training Date".toList, "Attendance - Day 1".toList],
    rows := [[Cell.cstr "a@x.com".toList, Cell.cstr "16-01-2025".toList, Cell.miss]] }

/-- The detected mapping of `c8Reg`. -/
def c8Map : ColMap := detect_registration_columns c8Reg.headers

/-- Counterexample to C8 as stated: the single roster row is out of scope for
2025-01-15, yet its attendance cell changes from missing to the empty string
in the output table (the column-wide `fillna("").astype(str)` coercion of
line 111), so out-of-scope rows are not left untouched. -/
theorem C8_out_of_scope_row_changed :
    inScopeRow (prepTable c8Reg c8Map 1).headers (prepMap c8Map 1) none wDate
        ((prepTable c8Reg c8Map 1).rows.getD 0 []) = false
    ∧ getCellR c8Reg.headers (c8Reg.rows.getD 0 []) (prepAttName c8Map 1) = Cell.miss
    ∧ getCellR (prepTable c8Reg c8Map 1).headers
        (((process_attendance (Except.ok c8Reg) (Except.ok wZoom) "r.csv".toList wDate 1
            none 60 none none none none).2.getD ⟨[], []⟩).rows.getD 0 [])
        (prepAttName c8Map 1)
        = Cell.cstr []
    ∧ Cell.cstr [] ≠ Cell.miss := by
  refine ⟨rfl, rfl, rfl, by decide⟩

/-- Witness for C8 (amended) at a concrete run: the out-of-scope attendance
cell equals the coerced original, and an untouched column cell survives. -/
theorem C8_frame_amended_witness :
    getCellR (prepTable c8Reg c8Map 1).headers
      (((process_attendance (Except.ok c8Reg) (Except.ok wZoom) "r.csv".toList wDate 1
          none 60 none none none none).2.getD ⟨[], []⟩).rows.getD 0 [])
      (prepAttName c8Map 1)
      = (match lookupKey c8Map (attKeyOf 1) with
         | some _ =>
             coerceCell (getCellR c8Reg.headers (c8Reg.rows.getD 0 []) (prepAttName c8Map 1))
         | none => Cell.cstr [])
    ∧ ((((process_attendance (Except.ok c8Reg) (Except.ok wZoom) "r.csv".toList wDate 1
          none 60 none none none none).2.getD ⟨[], []⟩).rows.getD 0 []).getD 0 Cell.miss
        = (c8Reg.rows.getD 0 []).getD 0 Cell.miss) := by
  have hrect : rect c8Reg := by
    intro r hr
    simp only [c8Reg, List.mem_singleton] at hr
    subst hr
    rfl
  have h := C8_frame_amended (Except.ok c8Reg) (Except.ok wZoom) "r.csv".toList wDate 1
    none 60 none none none none c8Reg wZoom c8Map wZoomMap rfl rfl hrect rfl
  exact ⟨h.2.2 0 (by decide) rfl, h.2.1 0 0 (by decide) (by decide) (by decide)⟩

/-! ## C4 — totality and (amended) non-negativity of duration parsing -/

/-- A number matched by the regex fragment is non-negative. -/
theorem matchNum_nonneg {s : List Char} {q : ℚ} {r : List Char}
    (h : matchNum s = some (q, r)) : 0 ≤ q := by
  unfold matchNum at h
  (repeat' split at h) <;> (try cases h) <;> positivity

/-- A colon-format `H:M:S` value is non-negative. -/
theorem colon3?_nonneg {s : List Char} {q : ℚ} (h : colon3? s = some q) : 0 ≤ q := by
  unfold colon3? at h
  (repeat' split at h) <;> (try cases h) <;> positivity

/-- A colon-format `M:S` value is non-negative. -/
theorem colon2?_nonneg {s : List Char} {q : ℚ} (h : colon2? s = some q) : 0 ≤ q := by
  unfold colon2? at h
  (repeat' split at h) <;> (try cases h) <;> positivity

/-- A value produced by `unitAt` is non-negative. -/
theorem unitAt_nonneg {isU : Char → Bool} {s : List Char} {q : ℚ}
    (h : unitAt isU s = some q) : 0 ≤ q := by
  unfold unitAt at h
  split at h
  · cases h
  · rename_i q0 r0 hmn
    (repeat' split at h) <;> (try cases h) <;> exact matchNum_nonneg hmn

/-- A value found by the unit search is non-negative. -/
theorem searchUnit_nonneg {isU : Char → Bool} {s : List Char} {q : ℚ}
    (h : searchUnit isU s = some q) : 0 ≤ q := by
  induction s with
  | nil => cases h
  | cons c r ih =>
    unfold searchUnit at h
    split at h
    · rename_i q0 hu
      cases h
      exact unitAt_nonneg hu
    · exact ih h

/-- A value found by the fallback number search is non-negative. -/
theorem searchNum_nonneg {s : List Char} {q : ℚ} (h : searchNum s = some q) : 0 ≤ q := by
  induction s with
  | nil => cases h
  | cons c r ih =>
    unfold searchNum at h
    split at h
    · rename_i q0 r0 hmn
      cases h
      exact matchNum_nonneg hmn
    · exact ih h

/-- A digit-free string yields no digits to `takeWhile`. -/
theorem takeWhile_digits_nil {s : List Char} (h : ∀ c ∈ s, c.isDigit = false) :
    s.takeWhile Char.isDigit = [] := by
  cases s with
  | nil => rfl
  | cons c r => simp [List.takeWhile_cons, h c (List.mem_cons_self c r)]

/-- On a digit-free string `takeDigits` consumes nothing. -/
theorem takeDigits_nil {s : List Char} (h : ∀ c ∈ s, c.isDigit = false) :
    takeDigits s = ([], s) := by
  cases s with
  | nil => rfl
  | cons c r =>
    simp [takeDigits, List.takeWhile_cons, List.dropWhile_cons,
      h c (List.mem_cons_self c r)]

/-- Stripping only removes characters. -/
theorem pyStrip_subset {c : Char} {s : List Char} (hc : c ∈ pyStrip s) : c ∈ s := by
  unfold pyStrip at hc
  rw [List.mem_reverse] at hc
  have h1 := (List.dropWhile_sublist (α := Char) isSpaceCh).subset hc
  rw [List.mem_reverse] at h1
  exact (List.dropWhile_sublist (α := Char) isSpaceCh).subset h1

/-- No digits, no `\d+(\.\d+)?` match. -/
theorem matchNum_none {s : List Char} (h : ∀ c ∈ s, c.isDigit = false) :
    matchNum s = none := by
  unfold matchNum
  rw [takeDigits_nil h]
  simp

/-- No digits, no number anywhere. -/
theorem searchNum_none {s : List Char} (h : ∀ c ∈ s, c.isDigit = false) :
    searchNum s = none := by
  induction s with
  | nil => rfl
  | cons c r ih =>
    unfold searchNum
    rw [matchNum_none h]
    exact ih (fun c2 hc2 => h c2 (List.mem_cons_of_mem c hc2))

/-- No digits, no number-with-unit match at the head. -/
theorem unitAt_none {isU : Char → Bool} {s : List Char}
    (h : ∀ c ∈ s, c.isDigit = false) : unitAt isU s = none := by
  unfold unitAt
  rw [matchNum_none h]

/-- No digits, no number-with-unit match anywhere. -/
theorem searchUnit_none {isU : Char → Bool} {s : List Char}
    (h : ∀ c ∈ s, c.isDigit = false) : searchUnit isU s = none := by
  induction s with
  | nil => rfl
  | cons c r ih =>
    unfold searchUnit
    rw [unitAt_none h]
    exact ih (fun c2 hc2 => h c2 (List.mem_cons_of_mem c hc2))

/-- No digits, no `H:M:S` match. -/
theorem colon3?_none {s : List Char} (h : ∀ c ∈ s, c.isDigit = false) :
    colon3? s = none := by
  unfold colon3?
  rw [takeDigits_nil h]
  simp

/-- No digits, no `M:S` match. -/
theorem colon2?_none {s : List Char} (h : ∀ c ∈ s, c.isDigit = false) :
    colon2? s = none := by
  unfold colon2?
  rw [takeDigits_nil h]
  simp

/-- No digits, no `digitpart`. -/
theorem uDigits_nil {s : List Char} (h : ∀ c ∈ s, c.isDigit = false) :
    uDigits s = ([], s) := by
  cases s with
  | nil => rfl
  | cons c r => simp [uDigits, h c (List.mem_cons_self c r)]

/-- No digits, no finite float literal. -/
theorem pyFloatCore?_none {s : List Char} (h : ∀ c ∈ s, c.isDigit = false) :
    pyFloatCore? s = none := by
  unfold pyFloatCore?
  rw [uDigits_nil h]
  simp only
  split
  · rw [uDigits_nil (fun c2 hc2 => h c2 (List.mem_cons_of_mem _ hc2))]
    simp
  · simp

/-- No digits, `float()` fails (the model maps the non-finite word forms to
`none` as well; they are excluded from every theorem by the `pyFloatSpecial`
hypothesis). -/
theorem pyFloat?_none {s : List Char} (h : ∀ c ∈ s, c.isDigit = false) :
    pyFloat? s = none := by
  unfold pyFloat?
  split
  · rw [pyFloatCore?_none (fun c2 hc2 => h c2 (List.mem_cons_of_mem _ hc2))]
    rfl
  · exact pyFloatCore?_none (fun c2 hc2 => h c2 (List.mem_cons_of_mem _ hc2))
  · exact pyFloatCore?_none h

/-- A string with no numeric token parses to 0 minutes. -/
theorem parse_duration_nodigit {s : List Char} (h : ∀ c ∈ s, c.isDigit = false) :
    parse_duration_chars s = 0 := by
  have hs : ∀ c ∈ pyStrip s, c.isDigit = false := fun c hc => h c (pyStrip_subset hc)
  simp only [parse_duration_chars]
  rw [pyFloat?_none hs, colon3?_none hs, colon2?_none hs, searchUnit_none hs,
    searchUnit_none hs, searchNum_none hs]
  simp

/-- Counterexample to C4 as stated: a negative numeric cell — or the string
`"-5"`, accepted by the plain `float()` parse — is returned as is, so
`parse_duration_to_minutes` is not non-negative on every input. -/
theorem C4_negative_duration :
    parse_duration_to_minutes (Cell.cnum (-5)) = -5
    ∧ parse_duration_to_minutes (Cell.cstr "-5".toList) = -5
    ∧ ¬ (0 : ℚ) ≤ parse_duration_to_minutes (Cell.cnum (-5)) := by
  refine ⟨rfl, by decide, by decide⟩

/-- C4 (amended): `parse_duration_to_minutes` is total by construction,
returns 0 on missing input and on any string that has neither a numeric
token nor one of `float()`'s non-finite word forms, and is non-negative
whenever the input is not a negative number, not such a word form, and not a
string whose `float()` parse (sign, digits, underscores, fraction, exponent)
is negative — every pattern-extraction branch only produces non-negative
values.  Strings `float()` maps to `inf`/`nan` are excluded by the
`pyFloatSpecial` hypotheses: there the program passes the non-finite value
through, which `ℚ` cannot represent. -/
theorem C4_total_and_nonneg (c : Cell) :
    (c = Cell.miss → parse_duration_to_minutes c = 0)
    ∧ (∀ s, c = Cell.cstr s → (∀ ch ∈ s, ch.isDigit = false) →
        pyFloatSpecial (pyStrip s) = false →
        parse_duration_to_minutes c = 0)
    ∧ ((match c with
        | Cell.miss => True
        | Cell.cnum q => 0 ≤ q
        | Cell.cstr s => pyFloatSpecial (pyStrip s) = false
            ∧ ∀ q, pyFloat? (pyStrip s) = some q → 0 ≤ q) →
      0 ≤ parse_duration_to_minutes c) := by
  refine ⟨?_, ?_, ?_⟩
  · rintro rfl
    rfl
  · rintro s rfl h _
    exact parse_duration_nodigit h
  · intro hh
    cases c with
    | miss => exact le_refl 0
    | cnum q => exact hh
    | cstr s =>
      show (0 : ℚ) ≤ parse_duration_chars s
      simp only [parse_duration_chars]
      cases hpf : pyFloat? (pyStrip s) with
      | some q =>
        simp only [hpf]
        exact hh.2 q hpf
      | none =>
        simp only [hpf]
        cases h3 : colon3? (pyStrip s) with
        | some q =>
          simp only [h3]
          exact colon3?_nonneg h3
        | none =>
          simp only [h3]
          cases h2 : colon2? (pyStrip s) with
          | some q =>
            simp only [h2]
            exact colon2?_nonneg h2
          | none =>
            simp only [h2]
            by_cases hu : ((searchUnit isHourCh (pyStrip s)).isSome
                || (searchUnit isMinCh (pyStrip s)).isSome) = true
            · rw [if_pos hu]
              have h1 : (0 : ℚ) ≤ (searchUnit isHourCh (pyStrip s)).getD 0 := by
                cases hs1 : searchUnit isHourCh (pyStrip s) with
                | none => exact le_refl 0
                | some q => simpa using searchUnit_nonneg hs1
              have hm1 : (0 : ℚ) ≤ (searchUnit isMinCh (pyStrip s)).getD 0 := by
                cases hs2 : searchUnit isMinCh (pyStrip s) with
                | none => exact le_refl 0
                | some q => simpa using searchUnit_nonneg hs2
              have h60 : (0 : ℚ) ≤ (searchUnit isHourCh (pyStrip s)).getD 0 * 60 :=
                mul_nonneg h1 (by norm_num)
              linarith
            · rw [if_neg hu]
              cases hn : searchNum (pyStrip s) with
              | some q =>
                simp only [hn]
                exact searchNum_nonneg hn
              | none =>
                simp only [hn]
                exact le_refl 0

/-- Witness for C4 (amended) at concrete inputs. -/
theorem C4_total_and_nonneg_witness :
    parse_duration_to_minutes Cell.miss = 0
    ∧ parse_duration_to_minutes (Cell.cstr "abc".toList) = 0
    ∧ (0 : ℚ) ≤ parse_duration_to_minutes (Cell.cstr "1h 30m".toList) := by
  have hnum : pyFloat? (pyStrip "1h 30m".toList) = none := by decide
  refine ⟨(C4_total_and_nonneg Cell.miss).1 rfl,
    (C4_total_and_nonneg (Cell.cstr "abc".toList)).2.1 _ rfl (by decide) (by decide),
    (C4_total_and_nonneg (Cell.cstr "1h 30m".toList)).2.2 ⟨by decide, ?_⟩⟩
  intro q hq
  rw [hnum] at hq
  cases hq

/-! ## C9 — `"Hh Mm"` and `"H hours M minutes"` agree and equal `H*60 + M` -/

/-- Digit characters are digits. -/
theorem digitCh_isDigit (d : ℕ) : (digitCh d).isDigit = true := by
  unfold digitCh
  rcases d with _|_|_|_|_|_|_|_|_|d <;> rfl

/-- `chVal` inverts `digitCh` below 10. -/
theorem chVal_digitCh {d : ℕ} (h : d < 10) : chVal (digitCh d) = d := by
  interval_cases d <;> rfl

/-- `digitsVal` peels the last digit. -/
theorem digitsVal_append_one (l : List Char) (c : Char) :
    digitsVal (l ++ [c]) = 10 * digitsVal l + chVal c := by
  unfold digitsVal
  rw [List.foldl_append]
  rfl

/-- With sufficient fuel, the digit expansion is made of digits, is nonempty,
and evaluates back to its input. -/
theorem natCharsAux_spec : ∀ fuel n, n < fuel →
    (∀ c ∈ natCharsAux fuel n, c.isDigit = true)
    ∧ natCharsAux fuel n ≠ []
    ∧ digitsVal (natCharsAux fuel n) = n := by
  intro fuel
  induction fuel with
  | zero => omega
  | succ f ih =>
    intro n h
    unfold natCharsAux
    by_cases h10 : n < 10
    · rw [if_pos h10]
      refine ⟨?_, by simp, ?_⟩
      · intro c hc
        rw [List.mem_singleton] at hc
        subst hc
        exact digitCh_isDigit n
      · unfold digitsVal
        simp [chVal_digitCh h10]
    · rw [if_neg h10]
      have hlt : n / 10 < f := by
        have := Nat.div_lt_self (show 0 < n by omega) (show 1 < 10 by norm_num)
        omega
      obtain ⟨ihd, ihne, ihval⟩ := ih (n / 10) hlt
      refine ⟨?_, by simp, ?_⟩
      · intro c hc
        rcases List.mem_append.mp hc with h1 | h2
        · exact ihd c h1
        · rw [List.mem_singleton] at h2
          subst h2
          exact digitCh_isDigit _
      · rw [digitsVal_append_one, ihval, chVal_digitCh (Nat.mod_lt n (by norm_num))]
        omega

/-- Every character of `natChars n` is a digit. -/
theorem natChars_digits (n : ℕ) : ∀ c ∈ natChars n, c.isDigit = true :=
  (natCharsAux_spec (n + 1) n (Nat.lt_succ_self n)).1

/-- `natChars n` is nonempty. -/
theorem natChars_ne_nil (n : ℕ) : natChars n ≠ [] :=
  (natCharsAux_spec (n + 1) n (Nat.lt_succ_self n)).2.1

/-- `digitsVal` inverts `natChars`. -/
theorem digitsVal_natChars (n : ℕ) : digitsVal (natChars n) = n :=
  (natCharsAux_spec (n + 1) n (Nat.lt_succ_self n)).2.2

/-- A digit is not whitespace. -/
theorem not_space_of_digit {c : Char} (h : c.isDigit = true) : isSpaceCh c = false := by
  unfold isSpaceCh
  by_contra hw
  simp only [Bool.not_eq_false] at hw
  simp only [Char.isWhitespace] at hw
  rcases (by simpa using hw : ((c = ' ' ∨ c = '\t') ∨ c = '\x0d') ∨ c = '\n') with ((rfl | rfl) | rfl) | rfl <;>
    simp [Char.isDigit] at h

/-- `dropWhile` is the identity when the head does not satisfy the test. -/
theorem dropWhile_eq_self_of_head {p : Char → Bool} {s : List Char}
    (h : ∀ c, s.head? = some c → p c = false) : s.dropWhile p = s := by
  cases s with
  | nil => rfl
  | cons c r => simp [List.dropWhile_cons, h c rfl]

/-- `strip` is the identity when neither end is whitespace. -/
theorem pyStrip_id {s : List Char}
    (hh : ∀ c, s.head? = some c → isSpaceCh c = false)
    (hl : ∀ c, s.getLast? = some c → isSpaceCh c = false) : pyStrip s = s := by
  unfold pyStrip
  rw [dropWhile_eq_self_of_head hh]
  rw [dropWhile_eq_self_of_head (fun c hc => hl c (by rwa [List.head?_reverse] at hc))]
  exact List.reverse_reverse s

/-- `takeWhile isDigit` stops exactly at the first non-digit. -/
theorem takeWhile_digits_append {ds : List Char} {c : Char} {rest : List Char}
    (hds : ∀ x ∈ ds, x.isDigit = true) (hc : c.isDigit = false) :
    ((ds ++ c :: rest).takeWhile Char.isDigit) = ds := by
  induction ds with
  | nil => simp [List.takeWhile_cons, hc]
  | cons d0 ds' ih =>
    rw [List.cons_append, List.takeWhile_cons]
    rw [hds d0 (List.mem_cons_self d0 ds')]
    rw [ih (fun x hx => hds x (List.mem_cons_of_mem d0 hx))]
    simp

/-- `dropWhile isDigit` drops exactly the digit run. -/
theorem dropWhile_digits_append {ds : List Char} {c : Char} {rest : List Char}
    (hds : ∀ x ∈ ds, x.isDigit = true) (hc : c.isDigit = false) :
    ((ds ++ c :: rest).dropWhile Char.isDigit) = c :: rest := by
  induction ds with
  | nil => simp [List.dropWhile_cons, hc]
  | cons d0 ds' ih =>
    rw [List.cons_append, List.dropWhile_cons]
    rw [hds d0 (List.mem_cons_self d0 ds')]
    rw [ih (fun x hx => hds x (List.mem_cons_of_mem d0 hx))]
    simp

/-- `takeDigits` splits a digit run from its non-digit continuation. -/
theorem takeDigits_append {ds : List Char} {c : Char} {rest : List Char}
    (hds : ∀ x ∈ ds, x.isDigit = true) (hc : c.isDigit = false) :
    takeDigits (ds ++ c :: rest) = (ds, c :: rest) := by
  unfold takeDigits
  rw [takeWhile_digits_append hds hc, dropWhile_digits_append hds hc]

/-- The number regex at a digit run followed by a non-digit, non-dot
character matches exactly the run. -/
theorem matchNum_digits_append {ds : List Char} {c : Char} {rest : List Char}
    (hne : ds ≠ []) (hds : ∀ x ∈ ds, x.isDigit = true)
    (hc : c.isDigit = false) (hcd : c ≠ '.') :
    matchNum (ds ++ c :: rest) = some ((digitsVal ds : ℚ), c :: rest) := by
  unfold matchNum
  rw [takeDigits_append hds hc]
  simp only
  rw [if_neg (by simpa using hne)]
  split
  · rename_i r2 heq
    exact absurd (by injection heq) hcd
  · rfl

/-- The number regex fails at a non-digit head. -/
theorem matchNum_cons_nodigit {c : Char} {rest : List Char} (hc : c.isDigit = false) :
    matchNum (c :: rest) = none := by
  unfold matchNum takeDigits
  simp [List.takeWhile_cons, hc]

/-- A `digitpart` stops at the first non-digit, non-underscore character. -/
theorem uDigitsAux_digits_append {ds : List Char} {c : Char} {rest : List Char}
    (hds : ∀ x ∈ ds, x.isDigit = true) (hc : c.isDigit = false) (hu : c ≠ '_') :
    uDigitsAux (ds ++ c :: rest) = (ds, c :: rest) := by
  induction ds with
  | nil =>
    rw [List.nil_append]
    unfold uDigitsAux
    rw [if_neg (by simp [hc]), if_neg (by simp [hu])]
  | cons d0 ds' ih =>
    rw [List.cons_append]
    unfold uDigitsAux
    rw [if_pos (hds d0 (List.mem_cons_self d0 ds'))]
    rw [ih (fun x hx => hds x (List.mem_cons_of_mem d0 hx))]

/-- Likewise for the guarded entry point. -/
theorem uDigits_digits_append {ds : List Char} {c : Char} {rest : List Char}
    (hds : ∀ x ∈ ds, x.isDigit = true) (hc : c.isDigit = false) (hu : c ≠ '_') :
    uDigits (ds ++ c :: rest) = (ds, c :: rest) := by
  cases ds with
  | nil =>
    rw [List.nil_append]
    unfold uDigits
    show (if c.isDigit = true then uDigitsAux (c :: rest) else ([], c :: rest))
      = ([], c :: rest)
    rw [if_neg (by simp [hc])]
  | cons d0 ds' =>
    rw [List.cons_append]
    unfold uDigits
    show (if d0.isDigit = true then uDigitsAux (d0 :: (ds' ++ c :: rest))
          else ([], d0 :: (ds' ++ c :: rest))) = (d0 :: ds', c :: rest)
    rw [if_pos (hds d0 (List.mem_cons_self d0 ds')), ← List.cons_append]
    exact uDigitsAux_digits_append hds hc hu

/-- A finite float literal cannot continue past a character that is not a
digit, underscore, dot or exponent marker. -/
theorem pyFloatCore?_digits_append {ds : List Char} {c : Char} {rest : List Char}
    (hds : ∀ x ∈ ds, x.isDigit = true) (hc : c.isDigit = false) (hu : c ≠ '_')
    (hcd : c ≠ '.') (he : c ≠ 'e') (hE : c ≠ 'E') :
    pyFloatCore? (ds ++ c :: rest) = none := by
  unfold pyFloatCore?
  rw [uDigits_digits_append hds hc hu]
  simp only
  split
  · rename_i r2 heq
    exact absurd (by injection heq) hcd
  · by_cases hne : ds.isEmpty
    · rw [if_pos hne]
    · rw [if_neg hne]
      unfold pyFloatCore?.expPart?
      split
      · rename_i heq
        cases heq
      · rename_i c2 r2 heq
        have h1 : c2 = c := by injection heq with h1 h2; exact h1.symm
        subst h1
        rw [if_neg (by simp [he, hE])]

/-- `float()` fails on a digit run followed by a character that is not a
digit, underscore, dot or exponent marker. -/
theorem pyFloat?_digits_append {ds : List Char} {c : Char} {rest : List Char}
    (hne : ds ≠ []) (hds : ∀ x ∈ ds, x.isDigit = true)
    (hc : c.isDigit = false) (hu : c ≠ '_') (hcd : c ≠ '.')
    (he : c ≠ 'e') (hE : c ≠ 'E') :
    pyFloat? (ds ++ c :: rest) = none := by
  obtain ⟨d0, ds', rfl⟩ := List.exists_cons_of_ne_nil hne
  rw [List.cons_append]
  unfold pyFloat?
  have hd0 : d0.isDigit = true := hds d0 (List.mem_cons_self d0 ds')
  split
  · rename_i r heq
    have hmin : d0 = '-' := by injection heq
    subst hmin
    simp [Char.isDigit] at hd0
  · rename_i r heq
    have hplus : d0 = '+' := by injection heq
    subst hplus
    simp [Char.isDigit] at hd0
  · rw [← List.cons_append]
    exact pyFloatCore?_digits_append hds hc hu hcd he hE

/-- The `H:M:S` pattern fails when the digit run is followed by something
other than a colon. -/
theorem colon3?_digits_append {ds : List Char} {c : Char} {rest : List Char}
    (hds : ∀ x ∈ ds, x.isDigit = true) (hc : c.isDigit = false) (hcc : c ≠ ':') :
    colon3? (ds ++ c :: rest) = none := by
  unfold colon3?
  rw [takeDigits_append hds hc]
  simp only
  by_cases hne : ds.isEmpty
  · rw [if_pos hne]
  · rw [if_neg hne]
    split
    · rename_i r2 heq
      exact absurd (by injection heq) hcc
    · rfl

/-- The `M:S` pattern fails likewise. -/
theorem colon2?_digits_append {ds : List Char} {c : Char} {rest : List Char}
    (hds : ∀ x ∈ ds, x.isDigit = true) (hc : c.isDigit = false) (hcc : c ≠ ':') :
    colon2? (ds ++ c :: rest) = none := by
  unfold colon2?
  rw [takeDigits_append hds hc]
  simp only
  by_cases hne : ds.isEmpty
  · rw [if_pos hne]
  · rw [if_neg hne]
    split
    · rename_i r2 heq
      exact absurd (by injection heq) hcc
    · rfl

/-- The unit search skips a non-digit head. -/
theorem searchUnit_cons_nodigit {isU : Char → Bool} {c : Char} {rest : List Char}
    (hc : c.isDigit = false) : searchUnit isU (c :: rest) = searchUnit isU rest := by
  have hu : unitAt isU (c :: rest) = none := by
    unfold unitAt
    rw [matchNum_cons_nodigit hc]
  rw [searchUnit, hu]

/-- A digit run whose unit position does not match yields no unit match at this position. -/
theorem unitAt_digits_none {isU : Char → Bool} {ds : List Char} {c : Char}
    {rest : List Char} (hne : ds ≠ []) (hds : ∀ x ∈ ds, x.isDigit = true)
    (hc : c.isDigit = false) (hcd : c ≠ '.')
    (hfail : ∀ u r2, (c :: rest).dropWhile isSpaceCh = u :: r2 → isU u = false) :
    unitAt isU (ds ++ c :: rest) = none := by
  unfold unitAt
  rw [matchNum_digits_append hne hds hc hcd]
  change (match List.dropWhile isSpaceCh (c :: rest) with
          | u :: _ => if isU u = true then some ((digitsVal ds : ℚ)) else none
          | [] => none) = none
  cases hdw : (c :: rest).dropWhile isSpaceCh with
  | nil => rfl
  | cons u r2 =>
    change (if isU u = true then some ((digitsVal ds : ℚ)) else none) = none
    rw [hfail u r2 hdw]
    rfl

/-- A digit run whose unit position matches yields the run's value. -/
theorem unitAt_digits_some {isU : Char → Bool} {ds : List Char} {c : Char}
    {rest : List Char} (hne : ds ≠ []) (hds : ∀ x ∈ ds, x.isDigit = true)
    (hc : c.isDigit = false) (hcd : c ≠ '.')
    (hhit : ∃ u r2, (c :: rest).dropWhile isSpaceCh = u :: r2 ∧ isU u = true) :
    unitAt isU (ds ++ c :: rest) = some ((digitsVal ds : ℚ)) := by
  unfold unitAt
  rw [matchNum_digits_append hne hds hc hcd]
  change (match List.dropWhile isSpaceCh (c :: rest) with
          | u :: _ => if isU u = true then some ((digitsVal ds : ℚ)) else none
          | [] => none) = some ((digitsVal ds : ℚ))
  obtain ⟨u, r2, hdw, hu⟩ := hhit
  rw [hdw]
  change (if isU u = true then some ((digitsVal ds : ℚ)) else none) = some ((digitsVal ds : ℚ))
  rw [hu]
  rfl

/-- The unit search skips a digit run whose following unit position does not match. -/
theorem searchUnit_skip_digits {isU : Char → Bool} {ds : List Char} {c : Char}
    {rest : List Char} (hds : ∀ x ∈ ds, x.isDigit = true)
    (hc : c.isDigit = false) (hcd : c ≠ '.')
    (hfail : ∀ u r2, (c :: rest).dropWhile isSpaceCh = u :: r2 → isU u = false) :
    searchUnit isU (ds ++ c :: rest) = searchUnit isU (c :: rest) := by
  induction ds with
  | nil => rfl
  | cons d0 ds' ih =>
    rw [List.cons_append, searchUnit, ← List.cons_append,
      unitAt_digits_none (by simp) hds hc hcd hfail]
    exact ih (fun x hx => hds x (List.mem_cons_of_mem d0 hx))

/-- The unit search succeeds on a digit run whose following unit position matches. -/
theorem searchUnit_hit {isU : Char → Bool} {ds : List Char} {c : Char}
    {rest : List Char} (hne : ds ≠ []) (hds : ∀ x ∈ ds, x.isDigit = true)
    (hc : c.isDigit = false) (hcd : c ≠ '.')
    (hhit : ∃ u r2, (c :: rest).dropWhile isSpaceCh = u :: r2 ∧ isU u = true) :
    searchUnit isU (ds ++ c :: rest) = some ((digitsVal ds : ℚ)) := by
  obtain ⟨d0, ds', rfl⟩ := List.exists_cons_of_ne_nil hne
  rw [List.cons_append, searchUnit, ← List.cons_append,
    unitAt_digits_some (by simp) hds hc hcd hhit]

/-- The head of a nonempty digit run followed by anything is not
whitespace. -/
theorem head_digits_not_space {l₁ l₂ : List Char} (hne : l₁ ≠ [])
    (hd : ∀ x ∈ l₁, x.isDigit = true) :
    ∀ c, (l₁ ++ l₂).head? = some c → isSpaceCh c = false := by
  obtain ⟨d0, t, rfl⟩ := List.exists_cons_of_ne_nil hne
  intro c hc
  rw [List.cons_append] at hc
  simp only [List.head?_cons, Option.some.injEq] at hc
  subst hc
  exact not_space_of_digit (hd d0 (List.mem_cons_self d0 t))

/-- Evaluation of `parse_duration_to_minutes` on the `"Hh Mm"` form. -/
theorem parse_hm_short (H M : ℕ) :
    parse_duration_chars (natChars H ++ 'h' :: ' ' :: (natChars M ++ ['m']))
      = (H : ℚ) * 60 + M := by
  have hdH := natChars_digits H
  have hdM := natChars_digits M
  have hstrip : pyStrip (natChars H ++ 'h' :: ' ' :: (natChars M ++ ['m']))
      = natChars H ++ 'h' :: ' ' :: (natChars M ++ ['m']) := by
    apply pyStrip_id (head_digits_not_space (natChars_ne_nil H) hdH)
    intro c hc
    have he : natChars H ++ 'h' :: ' ' :: (natChars M ++ ['m'])
        = (natChars H ++ 'h' :: ' ' :: natChars M) ++ ['m'] := by
      simp
    rw [he, List.getLast?_concat] at hc
    cases hc
    decide
  simp only [parse_duration_chars]
  rw [hstrip]
  rw [pyFloat?_digits_append (natChars_ne_nil H) hdH (by decide) (by decide) (by decide)
    (by decide) (by decide)]
  rw [colon3?_digits_append hdH (by decide) (by decide)]
  rw [colon2?_digits_append hdH (by decide) (by decide)]
  have hH : searchUnit isHourCh (natChars H ++ 'h' :: ' ' :: (natChars M ++ ['m']))
      = some ((digitsVal (natChars H) : ℚ)) := by
    apply searchUnit_hit (natChars_ne_nil H) hdH (by decide) (by decide)
    exact ⟨'h', ' ' :: (natChars M ++ ['m']),
      by rw [List.dropWhile_cons, if_neg (by decide)], by decide⟩
  have hM : searchUnit isMinCh (natChars H ++ 'h' :: ' ' :: (natChars M ++ ['m']))
      = some ((digitsVal (natChars M) : ℚ)) := by
    rw [searchUnit_skip_digits hdH (by decide) (by decide)
      (by
        intro u r2 hdw
        rw [List.dropWhile_cons, if_neg (by decide)] at hdw
        injection hdw with h1 _
        subst h1
        decide)]
    rw [searchUnit_cons_nodigit (by decide), searchUnit_cons_nodigit (by decide)]
    apply searchUnit_hit (natChars_ne_nil M) hdM (by decide) (by decide)
    exact ⟨'m', [], by rw [List.dropWhile_cons, if_neg (by decide)], by decide⟩
  rw [hH, hM]
  simp [digitsVal_natChars]

/-- Evaluation of `parse_duration_to_minutes` on the
`"H hours M minutes"` form. -/
theorem parse_hm_long (H M : ℕ) :
    parse_duration_chars (natChars H ++ ' ' :: 'h' :: 'o' :: 'u' :: 'r' :: 's' :: ' '
        :: (natChars M ++ ' ' :: ['m', 'i', 'n', 'u', 't', 'e', 's']))
      = (H : ℚ) * 60 + M := by
  have hdH := natChars_digits H
  have hdM := natChars_digits M
  have hstrip : pyStrip (natChars H ++ ' ' :: 'h' :: 'o' :: 'u' :: 'r' :: 's' :: ' '
        :: (natChars M ++ ' ' :: ['m', 'i', 'n', 'u', 't', 'e', 's']))
      = natChars H ++ ' ' :: 'h' :: 'o' :: 'u' :: 'r' :: 's' :: ' '
        :: (natChars M ++ ' ' :: ['m', 'i', 'n', 'u', 't', 'e', 's']) := by
    apply pyStrip_id (head_digits_not_space (natChars_ne_nil H) hdH)
    intro c hc
    have he : natChars H ++ ' ' :: 'h' :: 'o' :: 'u' :: 'r' :: 's' :: ' '
          :: (natChars M ++ ' ' :: ['m', 'i', 'n', 'u', 't', 'e', 's'])
        = (natChars H ++ ' ' :: 'h' :: 'o' :: 'u' :: 'r' :: 's' :: ' '
          :: (natChars M ++ [' ', 'm', 'i', 'n', 'u', 't', 'e'])) ++ ['s'] := by
      simp
    rw [he, List.getLast?_concat] at hc
    cases hc
    decide
  simp only [parse_duration_chars]
  rw [hstrip]
  rw [pyFloat?_digits_append (natChars_ne_nil H) hdH (by decide) (by decide) (by decide)
    (by decide) (by decide)]
  rw [colon3?_digits_append hdH (by decide) (by decide)]
  rw [colon2?_digits_append hdH (by decide) (by decide)]
  have hH : searchUnit isHourCh (natChars H ++ ' ' :: 'h' :: 'o' :: 'u' :: 'r' :: 's' :: ' '
        :: (natChars M ++ ' ' :: ['m', 'i', 'n', 'u', 't', 'e', 's']))
      = some ((digitsVal (natChars H) : ℚ)) := by
    apply searchUnit_hit (natChars_ne_nil H) hdH (by decide) (by decide)
    refine ⟨'h', 'o' :: 'u' :: 'r' :: 's' :: ' '
      :: (natChars M ++ ' ' :: ['m', 'i', 'n', 'u', 't', 'e', 's']), ?_, by decide⟩
    rw [List.dropWhile_cons, if_pos (by decide), List.dropWhile_cons, if_neg (by decide)]
  have hM : searchUnit isMinCh (natChars H ++ ' ' :: 'h' :: 'o' :: 'u' :: 'r' :: 's' :: ' '
        :: (natChars M ++ ' ' :: ['m', 'i', 'n', 'u', 't', 'e', 's']))
      = some ((digitsVal (natChars M) : ℚ)) := by
    rw [searchUnit_skip_digits hdH (by decide) (by decide)
      (by
        intro u r2 hdw
        rw [List.dropWhile_cons, if_pos (by decide),
          List.dropWhile_cons, if_neg (by decide)] at hdw
        injection hdw with h1 _
        subst h1
        decide)]
    rw [searchUnit_cons_nodigit (by decide), searchUnit_cons_nodigit (by decide),
      searchUnit_cons_nodigit (by decide), searchUnit_cons_nodigit (by decide),
      searchUnit_cons_nodigit (by decide), searchUnit_cons_nodigit (by decide),
      searchUnit_cons_nodigit (by decide)]
    apply searchUnit_hit (natChars_ne_nil M) hdM (by decide) (by decide)
    refine ⟨'m', ['i', 'n', 'u', 't', 'e', 's'], ?_, by decide⟩
    rw [List.dropWhile_cons, if_pos (by decide), List.dropWhile_cons, if_neg (by decide)]
  rw [hH, hM]
  simp [digitsVal_natChars]

/-- C9: for all hour and minute quantities `H` and `M`, the strings
`"Hh Mm"` and `"H hours M minutes"` parse to the same duration, namely
`H*60 + M` minutes. -/
theorem C9_hour_minute_forms_agree (H M : ℕ) :
    parse_duration_to_minutes (Cell.cstr (natChars H ++ 'h' :: ' ' :: (natChars M ++ ['m'])))
      = parse_duration_to_minutes (Cell.cstr (natChars H ++ ' ' :: 'h' :: 'o' :: 'u' :: 'r'
          :: 's' :: ' ' :: (natChars M ++ ' ' :: ['m', 'i', 'n', 'u', 't', 'e', 's'])))
    ∧ parse_duration_to_minutes (Cell.cstr (natChars H ++ 'h' :: ' ' :: (natChars M ++ ['m'])))
      = (H : ℚ) * 60 + M := by
  constructor
  · show parse_duration_chars _ = parse_duration_chars _
    rw [parse_hm_short, parse_hm_long]
  · exact parse_hm_short H M

/-! ## C5 — `parse_date` on its supported formats -/

/-- `%d`/`%m` two-digit alternatives fail without digits. -/
theorem twoDig?_none {bound : ℕ} {cs : List Char} (h : ∀ c ∈ cs, c.isDigit = false) :
    twoDig? bound cs = none := by
  cases cs with
  | nil => rfl
  | cons a r =>
    cases r with
    | nil => rfl
    | cons b r2 => simp [twoDig?, h a (List.mem_cons_self a _)]

/-- The one-digit alternative fails without digits. -/
theorem oneDig?_none {cs : List Char} (h : ∀ c ∈ cs, c.isDigit = false) :
    oneDig? cs = none := by
  cases cs with
  | nil => rfl
  | cons a r => simp [oneDig?, h a (List.mem_cons_self a _)]

/-- `%Y` fails without digits. -/
theorem year4?_none {cs : List Char} (h : ∀ c ∈ cs, c.isDigit = false) :
    year4? cs = none := by
  cases cs with
  | nil => rfl
  | cons a r =>
    cases r with
    | nil => rfl
    | cons b r2 =>
      cases r2 with
      | nil => rfl
      | cons c2 r3 =>
        cases r3 with
        | nil => rfl
        | cons d2 r4 => simp [year4?, h a (List.mem_cons_self a _)]

/-- `%y` fails without digits. -/
theorem year2?_none {cs : List Char} (h : ∀ c ∈ cs, c.isDigit = false) :
    year2? cs = none := by
  cases cs with
  | nil => rfl
  | cons a r =>
    cases r with
    | nil => rfl
    | cons b r2 => simp [year2?, h a (List.mem_cons_self a _)]

/-- A month-name match only consumes characters. -/
theorem matchMonth_drop {names : List (ℕ × List Char)} {cs : List Char} {v : ℕ}
    {r : List Char} (h : matchMonth names cs = some (v, r)) : ∃ n, r = cs.drop n := by
  induction names with
  | nil => cases h
  | cons p rest ih =>
    unfold matchMonth at h
    split at h
    · cases h
      exact ⟨p.2.length, rfl⟩
    · exact ih h

/-- A format containing the `%d` token cannot match a digit-free string. -/
theorem matchToks_day_none : ∀ (toks : List DTok) (cs : List Char) (d m y : ℕ),
    DTok.dayT ∈ toks → (∀ c ∈ cs, c.isDigit = false) →
    matchToks toks cs d m y = none := by
  intro toks
  induction toks with
  | nil => intro cs d m y h; cases h
  | cons t ts ih =>
    intro cs d m y hmem hnd
    cases t with
    | dayT =>
      unfold matchToks
      rw [twoDig?_none hnd, oneDig?_none hnd]
      rfl
    | monthT =>
      unfold matchToks
      rw [twoDig?_none hnd, oneDig?_none hnd]
      rfl
    | year4T =>
      unfold matchToks
      rw [year4?_none hnd]
    | year2T =>
      unfold matchToks
      rw [year2?_none hnd]
    | monAbbrT =>
      have hts : DTok.dayT ∈ ts := by
        rcases List.mem_cons.mp hmem with h1 | h2
        · cases h1
        · exact h2
      unfold matchToks
      cases hmm : matchMonth monthAbbrNames cs with
      | none => rfl
      | some p =>
        obtain ⟨v, r⟩ := p
        obtain ⟨n, hr⟩ := matchMonth_drop hmm
        show matchToks ts r d v y = none
        rw [hr]
        exact ih _ _ _ _ hts (fun c hc => hnd c (List.drop_subset n cs hc))
    | monFullT =>
      have hts : DTok.dayT ∈ ts := by
        rcases List.mem_cons.mp hmem with h1 | h2
        · cases h1
        · exact h2
      unfold matchToks
      cases hmm : matchMonth monthFullNames cs with
      | none => rfl
      | some p =>
        obtain ⟨v, r⟩ := p
        obtain ⟨n, hr⟩ := matchMonth_drop hmm
        show matchToks ts r d v y = none
        rw [hr]
        exact ih _ _ _ _ hts (fun c hc => hnd c (List.drop_subset n cs hc))
    | litT c0 =>
      have hts : DTok.dayT ∈ ts := by
        rcases List.mem_cons.mp hmem with h1 | h2
        · cases h1
        · exact h2
      cases cs with
      | nil => rfl
      | cons c2 r =>
        unfold matchToks
        show (if c2 == c0 then matchToks ts r d m y else none) = none
        by_cases hc : c2 == c0
        · rw [if_pos hc]
          exact ih _ _ _ _ hts (fun c hc2 => hnd c (List.mem_cons_of_mem c2 hc2))
        · rw [if_neg hc]
    | spT =>
      have hts : DTok.dayT ∈ ts := by
        rcases List.mem_cons.mp hmem with h1 | h2
        · cases h1
        · exact h2
      cases cs with
      | nil => rfl
      | cons c2 r =>
        unfold matchToks
        show (if isSpaceCh c2 then matchToks ts (r.dropWhile isSpaceCh) d m y else none) = none
        by_cases hc : isSpaceCh c2
        · rw [if_pos hc]
          exact ih _ _ _ _ hts (fun c hc2 => hnd c (List.mem_cons_of_mem c2
            ((List.dropWhile_sublist isSpaceCh).subset hc2)))
        · rw [if_neg hc]

/-- A format list whose members all contain `%d` matches no digit-free
string. -/
theorem firstFmt_none {fs : List (List DTok)} {s : List Char}
    (hday : ∀ f ∈ fs, DTok.dayT ∈ f) (hnd : ∀ c ∈ s, c.isDigit = false) :
    firstFmt fs s = none := by
  induction fs with
  | nil => rfl
  | cons f rest ih =>
    unfold firstFmt
    have htf : tryFormat f s = none := by
      unfold tryFormat
      rw [matchToks_day_none f s 1 1 1900 (hday f (List.mem_cons_self f rest)) hnd]
    rw [htf]
    exact ih (fun f2 hf2 => hday f2 (List.mem_cons_of_mem f hf2))

/-- C5: `parse_date` maps `"15-01-2025"`, `"15/01/2025"`, `"2025-01-15"` and
`"15-01-25"` to the same calendar date 2025-01-15 through its fixed ordered
format list; it returns `none` on missing input, and `none` — rather than
raising — when every attempt, the generic day-first fallback included, fails
(exhibited on the digit-free strings no format or fallback can match, other
than the wall-clock words `"today"`/`"now"`, which pandas special-cases to
the current date and which are therefore excluded). -/
theorem C5_parse_date_formats :
    parse_date_cell Cell.miss = none
    ∧ parse_date_chars "15-01-2025".toList = some ⟨2025, 1, 15⟩
    ∧ parse_date_chars "15/01/2025".toList = some ⟨2025, 1, 15⟩
    ∧ parse_date_chars "2025-01-15".toList = some ⟨2025, 1, 15⟩
    ∧ parse_date_chars "15-01-25".toList = some ⟨2025, 1, 15⟩
    ∧ (∀ s : List Char, (∀ c ∈ s, c.isDigit = false) →
        pdTodayWord (pyStrip s) = false → parse_date_chars s = none) := by
  refine ⟨rfl, by decide, by decide, by decide, by decide, ?_⟩
  intro s hnd _
  have hnd2 : ∀ c ∈ pyStrip s, c.isDigit = false := fun c hc => hnd c (pyStrip_subset hc)
  simp only [parse_date_chars]
  rw [firstFmt_none (by decide) hnd2]
  unfold pdFallback
  rw [firstFmt_none (by decide) hnd2]

/-- Witness for C5 at a concrete failing input. -/
theorem C5_parse_date_formats_witness :
    parse_date_chars "not a date".toList = none :=
  C5_parse_date_formats.2.2.2.2.2 "not a date".toList (by decide) (by decide)
